import Mathlib

/-!
Verification of the `hta-schema-tools` validators against their
natural-language specification.

The development shallowly embeds the two source files:
  * `src/validator/expression_validator.py` (class `ExpressionValidator`
    and the convenience entry point `validate_model_expressions`), and
  * `src/validator/hta_validator.py` (class `HTASchemaValidator`).

Modelling conventions:
  * Python floats are modelled as exact rationals (`Rat`).
  * Python dicts keyed by strings are modelled as association lists in
    insertion order (Python dicts preserve insertion order).
  * Python sets have unspecified iteration order; where the source
    iterates a set we determinize to first-insertion order, and where a
    set is embedded in a single message we carry a `Finset`.
  * A Python `None`-or-absent field is an `Option` (key present with a
    `None` value is conflated with an absent key; no check distinguishes
    them except via truthiness, which agrees).
  * Diagnostic strings are modelled as structured constructors carrying
    exactly the data interpolated into the source's f-strings.
  * Regular expressions use Unicode word characters in Python; the
    embedding uses the ASCII classes `[a-zA-Z0-9_]` that the source's
    character whitelist confines expressions to.
-/

/-- Severity of one diagnostic, mirroring `ValidationError.severity`
(`"error"` or `"warning"`). -/
inductive Severity where
  | error
  | warning
deriving DecidableEq, Repr

/-- Structured message of an `ExpressionValidator` diagnostic: one
constructor per `self.errors.append` site in
`expression_validator.py`, carrying the data interpolated into the
source message. -/
inductive EMsg where
  /-- "Expression cannot be empty" -/
  | emptyExpr
  /-- "Unbalanced parentheses in expression" -/
  | unbalanced
  /-- "Invalid characters in expression: {set(invalid_chars)}"; carries
  the `re.findall` occurrence list whose set the message shows. -/
  | invalidChars (cs : List Char)
  /-- "Invalid operator sequence: {pattern}" -/
  | badOpSeq (pat : String)
  /-- "Parameter '{param_id}' not found in model parameters"
  (from `_validate_value_reference`). -/
  | paramNotFound (p : String)
  /-- "Parameter '{param}' referenced in expression but not defined in
  model" (from `_validate_parameter_references`). -/
  | unresolvedParam (p : String)
  /-- "Unknown function '{func}' in expression" -/
  | unknownFunc (f : String)
  /-- "Expression contains division - ensure denominator cannot be zero" -/
  | divisionWarn
  /-- "Expression contains exponentiation - be careful of numeric overflow" -/
  | powWarn
  /-- "Expression is very long - consider breaking into intermediate
  parameters" -/
  | longWarn
deriving DecidableEq, Repr

/-- Mirror of the `ValidationError` dataclass. -/
structure ValidationError where
  message : EMsg
  location : String
  expression : Option String := none
  severity : Severity := .error
deriving DecidableEq, Repr

/-- Declared bounds of a parameter (`bounds` sub-dict). -/
structure PBounds where
  lower : Option Rat := none
  upper : Option Rat := none
deriving DecidableEq, Repr

/-- One parameter definition as read by the validators: `type`,
`base_value` and `bounds` keys. -/
structure Param where
  type : Option String := none
  base_value : Option Rat := none
  bounds : Option PBounds := none
deriving DecidableEq, Repr

/-- A generic value slot (`ValueReference`): the validators only read
the `parameter_ref` and `expression` keys. -/
structure ValueRef where
  parameter_ref : Option String := none
  expression : Option String := none
deriving DecidableEq, Repr

/-- One cost or utility item of a terminal node's outcomes. -/
structure CostItem where
  value : Option ValueRef := none
  duration_years : Option ValueRef := none
deriving DecidableEq, Repr

/-- Outcomes payload of a terminal node. -/
structure Outcomes where
  costs : List CostItem := []
  utilities : List CostItem := []
  life_years : Option ValueRef := none
deriving DecidableEq, Repr

/-- One branch of a decision or chance node. -/
structure Branch where
  branch_id : Option String := none
  target_node : Option String := none
  probability : Option ValueRef := none
  initial_cost : Option ValueRef := none
deriving DecidableEq, Repr

/-- One node of the model structure. -/
structure Node where
  node_type : Option String := none
  branches : List Branch := []
  outcomes : Option Outcomes := none
deriving DecidableEq, Repr

/-- The `model_structure` dict: `root_node` and the `nodes` mapping in
insertion order. -/
structure ModelStructure where
  root_node : Option String := none
  nodes : List (String × Node) := []
deriving DecidableEq, Repr

/-- The `model_metadata` dict (only `model_type` is read by checks). -/
structure MetaData where
  model_type : Option String := none
deriving DecidableEq, Repr

/-- The top-level model dict. `analysis_settings` is only
presence-checked, so it is a `Bool`. -/
structure Model where
  schema_version : Option String := none
  model_metadata : Option MetaData := none
  model_structure : Option ModelStructure := none
  parameters : Option (List (String × Param)) := none
  analysis_settings : Bool := false
deriving DecidableEq, Repr

/-- Association-list lookup keyed by strings (Python dict lookup). -/
def alookup (l : List (String × α)) (k : String) : Option α :=
  match l with
  | [] => none
  | (k', v) :: rest => if k' = k then some v else alookup rest k

/-- Keys of an association list, in insertion order. -/
def akeys (l : List (String × α)) : List String := l.map Prod.fst

/-- Python truthiness of an optional string: both `None` and the empty
string are falsy (`if prob_ref:` and the like). -/
def truthyStr : Option String → Option String
  | some "" => none
  | x => x

/-- Python `f"{x}"` rendering of an optional string (`None` prints as
the text `None`). -/
def pyShowOptStr : Option String → String
  | some s => s
  | none => "None"

/-- Python `abs` on a number. -/
def pyAbs (q : Rat) : Rat := if q < 0 then -q else q

/-- Addition of Python floats, modelled as exact rational addition
(spelled out through `mkRat` so that it is kernel-computable; equal to
`Rat` addition by `pyAdd_eq` below). -/
def pyAdd (a b : Rat) : Rat := mkRat (a.num * b.den + b.num * a.den) (a.den * b.den)

/-- Subtraction of Python floats, modelled as exact rational
subtraction (equal to `Rat` subtraction by `pySub_eq` below). -/
def pySub (a b : Rat) : Rat := mkRat (a.num * b.den - b.num * a.den) (a.den * b.den)

/-- Python `str.startswith`. -/
def pyStartsWith (s pre : String) : Bool := pre.toList.isPrefixOf s.toList

/-- ASCII whitespace, standing for the source's `\s` / `str.strip`
classes. -/
def pyIsSpace (c : Char) : Bool :=
  c = ' ' || c = '\t' || c = '\n' || c = '\r' || c = '\x0b' || c = '\x0c'

/-- A regex word character `\w` restricted to ASCII: `[a-zA-Z0-9_]`. -/
def isWordChar (c : Char) : Bool :=
  c.isAlpha || c.isDigit || c = '_'

/-- A character of the identifier class `[a-zA-Z0-9_-]` used by the
parameter-extraction regex. -/
def isTokenChar (c : Char) : Bool :=
  isWordChar c || c = '-'

/-- Membership in the character whitelist
`[a-zA-Z0-9_\-+\-*/^%()<>=!,.\s]` of `_validate_syntax`. -/
def allowedExprChar (c : Char) : Bool :=
  c.isAlpha || c.isDigit || c = '_' || c = '-' || c = '+' || c = '*' ||
  c = '/' || c = '^' || c = '%' || c = '(' || c = ')' || c = '<' ||
  c = '>' || c = '=' || c = '!' || c = ',' || c = '.' || pyIsSpace c

/-- Function-table arity values: a fixed count, the `(1, 2)` pair of
`round`, or `-1` for variadic. -/
inductive Arity where
  | fixed (n : Nat)
  | oneOrTwo
  | variadic
deriving DecidableEq, Repr

/-- The `ExpressionValidator.FUNCTIONS` table, in source (dict
insertion) order.  Arities are carried for fidelity; the source never
reads them (argument-count checking is documented as unimplemented). -/
def FUNCTIONS : List (String × Arity) :=
  [("abs", .fixed 1), ("sqrt", .fixed 1), ("exp", .fixed 1),
   ("log", .fixed 1), ("ln", .fixed 1), ("log10", .fixed 1),
   ("ceil", .fixed 1), ("floor", .fixed 1), ("round", .oneOrTwo),
   ("pow", .fixed 2), ("min", .variadic), ("max", .variadic),
   ("if", .fixed 3),
   ("normal_mean", .fixed 2), ("normal_sd", .fixed 2),
   ("gamma_mean", .fixed 2), ("gamma_sd", .fixed 2),
   ("beta_mean", .fixed 2), ("beta_sd", .fixed 2),
   ("lognormal_mean", .fixed 2), ("lognormal_sd", .fixed 2),
   ("discount", .fixed 3), ("discount_stream", .fixed 3),
   ("sum", .variadic), ("mean", .variadic), ("product", .variadic)]

/-- Names of the function table (Python `for func in self.FUNCTIONS`
iterates the keys in insertion order). -/
def FUNCTION_NAMES : List String := akeys FUNCTIONS

/-- Keywords filtered out of extracted identifiers. -/
def KEYWORDS : List String := ["and", "or", "not", "if"]

/-- Loop body of `_check_balanced_parens`: running counter, failing the
moment it goes negative, succeeding iff it ends at zero. -/
def checkParensGo : Int → List Char → Bool
  | count, [] => count == 0
  | count, c :: rest =>
    let count := if c = '(' then count + 1 else if c = ')' then count - 1 else count
    if count < 0 then false else checkParensGo count rest

/-- Mirror of `_check_balanced_parens`. -/
def check_balanced_parens (s : List Char) : Bool := checkParensGo 0 s

/-- Occurrence list of characters outside the whitelist, as
`re.findall` of the complement class returns them (one entry per
occurrence, in order). -/
def invalidCharsOf (s : List Char) : List Char :=
  s.filter (fun c => !allowedExprChar c)

/-- Substring test (Python `pattern in string`). -/
def isSubstrOf (pat s : List Char) : Bool :=
  s.tails.any (fun t => pat.isPrefixOf t)

/-- The forbidden adjacent-operator literals, in source order. -/
def BAD_PATTERNS : List String := ["++", "**", "//", "^^"]

/-- First forbidden pattern contained in the expression with spaces
removed (`expression.replace(' ', '')`); the source loop reports the
first hit and returns. -/
def firstBadPattern (s : List Char) : Option String :=
  BAD_PATTERNS.find? (fun p => isSubstrOf p.toList (s.filter (fun c => !(c = ' '))))

/-- Dropping a prefix by predicate never lengthens a list (termination
helper for the scanners below). -/
theorem dropWhile_length_le (p : Char → Bool) (l : List Char) :
    (l.dropWhile p).length ≤ l.length := by
  induction l with
  | nil => simp
  | cons c rest ih =>
    simp only [List.dropWhile]
    split
    · simp only [List.length_cons]; omega
    · simp

/-- One `re.sub(rf'\b{func}\s*\(', '', temp_expr)` pass: scan the
original string left to right; at a position preceded by a non-word
character (or the start), a literal `name` followed by optional
whitespace and `(` is removed (the match, including the `(`, emits
nothing); everything else is copied.  `prev` is the previous character
of the original string, used for the `\b` test.  The fuel argument
only serves structural termination: every step consumes at least one
character, so fuel equal to the string length (supplied by `subFunc`)
is never exhausted. -/
def subFuncAux (name : List Char) : Nat → Option Char → List Char → List Char
  | 0, _, s => s
  | _ + 1, _, [] => []
  | fuel + 1, prev, c :: rest =>
    let boundary : Bool := match prev with
      | none => true
      | some p => !isWordChar p
    if boundary && name.isPrefixOf (c :: rest) then
      match ((c :: rest).drop name.length).dropWhile pyIsSpace with
      | '(' :: tl => subFuncAux name fuel (some '(') tl
      | _ => c :: subFuncAux name fuel (some c) rest
    else
      c :: subFuncAux name fuel (some c) rest

/-- Removal of one function name's call sites (`re.sub` with empty
replacement). -/
def subFunc (name : String) (s : List Char) : List Char :=
  subFuncAux name.toList s.length none s

/-- The function-call stripping loop of `_validate_parameter_references`:
each table entry is substituted away in table order. -/
def removeFuncCalls (s : List Char) : List Char :=
  FUNCTION_NAMES.foldl (fun acc f => subFunc f acc) s

/-- Strip trailing hyphens: the trailing `\b` of the identifier regex
forces the match to end on a word character, so the greedy
`[a-zA-Z0-9_-]*` run backtracks over any trailing `-`. -/
def rstripHyphen (l : List Char) : List Char :=
  (l.reverse.dropWhile (fun c => c = '-')).reverse

/-- Scanner for `re.findall(r'\b[a-zA-Z][a-zA-Z0-9_-]*\b', s)`.
`prevWord` says whether the previous character was a word character
(no match can start after one).  A match takes the greedy token run
and trims trailing hyphens; `re.findall` resumes after the match, and
the skipped trailing hyphens cannot begin a new match, so resuming
after the whole run is equivalent. -/
def scanIdentsAux : Nat → Bool → List Char → List (List Char)
  | 0, _, _ => []
  | _ + 1, _, [] => []
  | fuel + 1, prevWord, c :: rest =>
    if !prevWord && c.isAlpha then
      let run := c :: rest.takeWhile isTokenChar
      rstripHyphen run ::
        scanIdentsAux fuel (isWordChar (run.getLastD 'a')) (rest.dropWhile isTokenChar)
    else
      scanIdentsAux fuel (isWordChar c) rest

/-- Identifier extraction of `_validate_parameter_references`.  The
fuel (the string length) only serves structural termination: every
scanner step consumes at least one character. -/
def extractIdentifiers (s : List Char) : List String :=
  (scanIdentsAux s.length false s).map (fun l => String.mk l)

/-- Scanner for `re.findall(r'([a-zA-Z_][a-zA-Z0-9_]*)\s*\(', s)`.
There is no leading `\b`, so a match may begin inside a word run (for
instance after leading digits); backtracking a shortened run can never
succeed because the following character would be a word character
rather than whitespace or `(`, so a match at a start position succeeds
exactly when the greedy run is followed by whitespace then `(`. -/
def findFuncCallsAux : Nat → List Char → List String
  | 0, _ => []
  | _ + 1, [] => []
  | fuel + 1, c :: rest =>
    if c.isAlpha || c = '_' then
      match (rest.dropWhile isWordChar).dropWhile pyIsSpace with
      | '(' :: tl => String.mk (c :: rest.takeWhile isWordChar) :: findFuncCallsAux fuel tl
      | _ => findFuncCallsAux fuel rest
    else
      findFuncCallsAux fuel rest

/-- Function-call extraction with adequate fuel (every scanner step
consumes at least one character). -/
def findFuncCalls (s : List Char) : List String := findFuncCallsAux s.length s

/-- Key membership in the parameter mapping (`param not in
self.parameters` is dict-key membership). -/
def containsParam (params : List (String × Param)) (p : String) : Bool :=
  (alookup params p).isSome

/-- Count of error-severity diagnostics
(`len([e for e in self.errors if e.severity == "error"])`). -/
def countErrors (l : List ValidationError) : Nat :=
  (l.filter (fun e => decide (e.severity = .error))).length

/-- Mirror of `_validate_syntax`: balance, character whitelist, then the
forbidden-operator-sequence loop, each appending one diagnostic and
returning `False` on the first failure. -/
def validateSyntaxPass (expression loc : String) (errs : List ValidationError) :
    Bool × List ValidationError :=
  if !check_balanced_parens expression.toList then
    (false, errs ++ [⟨.unbalanced, loc, some expression, .error⟩])
  else if invalidCharsOf expression.toList ≠ [] then
    (false, errs ++ [⟨.invalidChars (invalidCharsOf expression.toList), loc,
                      some expression, .error⟩])
  else
    match firstBadPattern expression.toList with
    | some p => (false, errs ++ [⟨.badOpSeq p, loc, some expression, .error⟩])
    | none => (true, errs)

/-- The identifier set `parameters_in_expr` of
`_validate_parameter_references`: strip function calls, extract
identifiers, drop keywords, deduplicate (`set(...)` determinized to
first-occurrence order). -/
def extractParams (expression : String) : List String :=
  (((extractIdentifiers (removeFuncCalls expression.toList)).filter
      (fun i => !KEYWORDS.contains i))).eraseDups

/-- Mirror of `_validate_parameter_references`: one error per distinct
extracted identifier missing from the registry; valid iff none was
missing. -/
def validateParamRefsPass (params : List (String × Param))
    (expression loc : String) (errs : List ValidationError) :
    Bool × List ValidationError :=
  (extractParams expression).foldl
    (fun st p =>
      if containsParam params p then st
      else (false, st.2 ++ [⟨.unresolvedParam p, loc, some expression, .error⟩]))
    (true, errs)

/-- Mirror of `_validate_functions`: one error per function-call
occurrence whose name is not in the table (occurrences are not
deduplicated). -/
def validateFunctionsPass (expression loc : String)
    (errs : List ValidationError) : Bool × List ValidationError :=
  (findFuncCalls expression.toList).foldl
    (fun st f =>
      if FUNCTION_NAMES.contains f then st
      else (false, st.2 ++ [⟨.unknownFunc f, loc, some expression, .error⟩]))
    (true, errs)

/-- Mirror of `_check_expression_warnings`: division, exponentiation
and length advisories, all warning severity. -/
def check_expression_warnings (expression loc : String)
    (errs : List ValidationError) : List ValidationError :=
  let errs :=
    if expression.toList.contains '/' then
      errs ++ [⟨.divisionWarn, loc, some expression, .warning⟩]
    else errs
  let errs :=
    if expression.toList.contains '^' then
      errs ++ [⟨.powWarn, loc, some expression, .warning⟩]
    else errs
  if expression.length > 200 then
    errs ++ [⟨.longWarn, loc, some expression, .warning⟩]
  else errs

/-- Mirror of `ExpressionValidator.validate_expression`: the ordered
passes with their early returns; the final return value is
`len([e for e in self.errors if e.severity == "error"]) == 0` over the
whole accumulated list. -/
def validate_expression (params : List (String × Param))
    (expression loc : String) (errs : List ValidationError) :
    Bool × List ValidationError :=
  if expression.toList.all pyIsSpace then
    (false, errs ++ [⟨.emptyExpr, loc, some expression, .error⟩])
  else
    match validateSyntaxPass expression loc errs with
    | (false, errs) => (false, errs)
    | (true, errs) =>
      match validateParamRefsPass params expression loc errs with
      | (false, errs) => (false, errs)
      | (true, errs) =>
        match validateFunctionsPass expression loc errs with
        | (false, errs) => (false, errs)
        | (true, errs) =>
          let errs := check_expression_warnings expression loc errs
          (countErrors errs == 0, errs)

/-- Mirror of `_validate_value_reference`: skip a falsy slot, then
dispatch on key presence of `parameter_ref` before `expression`. -/
def validate_value_reference (params : List (String × Param))
    (vr : Option ValueRef) (loc : String) (errs : List ValidationError) :
    List ValidationError :=
  match vr with
  | none => errs
  | some v =>
    match v.parameter_ref with
    | some pid =>
      if containsParam params pid then errs
      else errs ++ [⟨.paramNotFound pid, loc, none, .error⟩]
    | none =>
      match v.expression with
      | some e => (validate_expression params e loc errs).2
      | none => errs

/-- The enumerated cost/utility item loop of
`_validate_node_expressions` (`label` is `"cost"` or `"utility"`;
locations mirror the source's f-strings). -/
def validateItemsAux (params : List (String × Param)) (nid label : String)
    (i : Nat) (items : List CostItem) (errs : List ValidationError) :
    List ValidationError :=
  match items with
  | [] => errs
  | item :: rest =>
    let loc := "node " ++ nid ++ ", " ++ label ++ " item " ++ toString i
    let errs := validate_value_reference params item.value loc errs
    let errs :=
      match item.duration_years with
      | some d => validate_value_reference params (some d) (loc ++ " duration") errs
      | none => errs
    validateItemsAux params nid label (i + 1) rest errs

/-- Per-node body of `_validate_node_expressions`: dispatch on
`node_type` over terminal outcomes, chance probabilities, or decision
initial costs. -/
def validate_node_expressions_one (params : List (String × Param))
    (nid : String) (node : Node) (errs : List ValidationError) :
    List ValidationError :=
  if node.node_type = some "terminal" then
    let outc := node.outcomes.getD {}
    let errs := validateItemsAux params nid "cost" 0 outc.costs errs
    let errs := validateItemsAux params nid "utility" 0 outc.utilities errs
    match outc.life_years with
    | some ly =>
      validate_value_reference params (some ly) ("node " ++ nid ++ ", life_years") errs
    | none => errs
  else if node.node_type = some "chance" then
    node.branches.foldl
      (fun errs b =>
        validate_value_reference params b.probability
          ("node " ++ nid ++ ", branch " ++ pyShowOptStr b.branch_id) errs)
      errs
  else if node.node_type = some "decision" then
    node.branches.foldl
      (fun errs b =>
        match b.initial_cost with
        | some ic =>
          validate_value_reference params (some ic)
            ("node " ++ nid ++ ", branch " ++ pyShowOptStr b.branch_id) errs
        | none => errs)
      errs
  else errs

/-- Mirror of `ExpressionValidator.validate_model`: reset the
accumulator and walk every node of `model_structure` (an absent
structure defaults to no nodes). -/
def expr_validate_model (params : List (String × Param)) (m : Model) :
    List ValidationError :=
  ((m.model_structure.map ModelStructure.nodes).getD []).foldl
    (fun errs p => validate_node_expressions_one params p.1 p.2 errs) []

/-- Mirror of the convenience entry point `validate_model_expressions`:
validity is the absence of error-severity diagnostics. -/
def validate_model_expressions (m : Model) : Bool × List ValidationError :=
  let errors := expr_validate_model (m.parameters.getD []) m
  (!(errors.any (fun e => decide (e.severity = .error))), errors)

/-- Structured message of an `HTASchemaValidator` diagnostic: one
constructor per `self.errors.append` / `self.warnings.append` site of
`hta_validator.py`, carrying the data interpolated into the message.
Messages that embed a Python set carry a `Finset`. -/
inductive HDiag where
  /-- "No model loaded" -/
  | noModelLoaded
  /-- "Missing required field: {field}" -/
  | missingField (f : String)
  /-- "Schema version {version} may not match validator version 0.1" -/
  | versionMismatch (v : String)
  /-- "Model type '{model_type}' not supported in v0.1 ..." -/
  | unsupportedModelType (t : Option String)
  /-- "No root_node specified" -/
  | noRootNode
  /-- "Root node '{root_id}' not found in nodes" -/
  | rootNotFound (r : String)
  /-- "Root node must be 'decision' type, got '{...}'" -/
  | rootNotDecision (t : Option String)
  /-- "Model contains cycles (not a valid tree)" -/
  | cycleDetected
  /-- "Unreachable nodes: {unreachable}" -/
  | unreachableNodes (s : Finset String)
  /-- "No terminal nodes found - all paths must terminate" -/
  | noTerminalNodes
  /-- "Parameter '{prob_ref}' referenced but not defined" (probability
  check). -/
  | undefinedParam (p : String)
  /-- "Probabilities in chance node '{node_id}' sum to {prob_sum:.6f},
  should be 1.0 / Parameters: {prob_refs}" -/
  | probSumMismatch (node : String) (total : Rat) (refs : List String)
  /-- "Referenced parameter '{ref}' not defined in parameters section"
  (reference-closure check). -/
  | referencedNotDefined (p : String)
  /-- "Unused parameters (not referenced in model): {unused}" -/
  | unusedParams (s : Finset String)
  /-- "Parameter '{param_id}' (type: probability) ... outside valid
  range [0.0, 1.0]" -/
  | probOutOfRange (p : String) (v : Rat)
  /-- "Parameter '{param_id}' (type: utility) ... outside typical range
  [-1.0, 1.0]" -/
  | utilityOutOfRange (p : String) (v : Rat)
  /-- "Parameter '{param_id}' (type: cost) has negative base_value" -/
  | costNegative (p : String) (v : Rat)
  /-- "Parameter '{param_id}' (type: {param_type}) has negative
  base_value" for rate/duration. -/
  | rateOrDurationNegative (p : String) (t : String) (v : Rat)
  /-- "Parameter '{param_id}' (type: relative_risk) has non-positive
  base_value" -/
  | relativeRiskNonPositive (p : String) (v : Rat)
  /-- "Parameter '{param_id}' base_value {v} below lower bound {lower}" -/
  | belowLowerBound (p : String) (v lo : Rat)
  /-- "Parameter '{param_id}' base_value {v} above upper bound {upper}" -/
  | aboveUpperBound (p : String) (v hi : Rat)
deriving DecidableEq

/-- The two append-only accumulators `self.errors` / `self.warnings` of
`HTASchemaValidator`. -/
structure VAcc where
  errors : List HDiag := []
  warnings : List HDiag := []
deriving DecidableEq

/-- Append one error (`self.errors.append`). -/
def VAcc.addError (a : VAcc) (d : HDiag) : VAcc :=
  { a with errors := a.errors ++ [d] }

/-- Append one warning (`self.warnings.append`). -/
def VAcc.addWarning (a : VAcc) (d : HDiag) : VAcc :=
  { a with warnings := a.warnings ++ [d] }

/-- Mirror of `_validate_structure`: required-field presence in source
order, then the version advisory, then the model-type check. -/
def validate_structure (m : Model) (acc : VAcc) : VAcc :=
  let acc := if m.schema_version.isNone then acc.addError (.missingField "schema_version") else acc
  let acc := if m.model_metadata.isNone then acc.addError (.missingField "model_metadata") else acc
  let acc := if m.model_structure.isNone then acc.addError (.missingField "model_structure") else acc
  let acc := if m.parameters.isNone then acc.addError (.missingField "parameters") else acc
  let acc := if !m.analysis_settings then acc.addError (.missingField "analysis_settings") else acc
  let acc :=
    match m.schema_version with
    | some v => if !pyStartsWith v "0.1." then acc.addWarning (.versionMismatch v) else acc
    | none => acc
  match m.model_metadata with
  | some md =>
    if md.model_type ≠ some "decision_tree" then
      acc.addError (.unsupportedModelType md.model_type)
    else acc
  | none => acc

/-- Truthy branch targets of a node, in branch order. -/
def branchTargets (n : Node) : List String :=
  n.branches.filterMap (fun b => truthyStr b.target_node)

/-- Total number of truthy branch targets in the node mapping (fuel
bound for the traversals). -/
def totalTargetCount (nodes : List (String × Node)) : Nat :=
  (nodes.map (fun p => (branchTargets p.2).length)).sum

/-- Branch loop of `has_cycle`, abstracted over the recursive call: a
truthy target not yet visited is recursed into (threading the sets); a
visited target on the recursion stack is a cycle and returns
immediately. -/
def hasCycleBranches
    (recurse : String → List String → List String → Bool × List String × List String) :
    List Branch → List String → List String →
    Bool × List String × List String
  | [], visited, recStack => (false, visited, recStack)
  | b :: bs, visited, recStack =>
    match truthyStr b.target_node with
    | none => hasCycleBranches recurse bs visited recStack
    | some target =>
      if visited.contains target then
        if recStack.contains target then (true, visited, recStack)
        else hasCycleBranches recurse bs visited recStack
      else
        match recurse target visited recStack with
        | (true, v, r) => (true, v, r)
        | (false, v, r) => hasCycleBranches recurse bs v r

/-- Mirror of the recursive closure `has_cycle` of
`_validate_tree_properties`, with the mutated `visited` / `rec_stack`
sets threaded explicitly.  The Python recursion terminates because
every recursive call is on an unvisited target that gets marked
visited, so the depth is bounded by the number of distinct
identifiers; the fuel supplied by the top-level `has_cycle` is
therefore never exhausted.  Mirroring the source, the early return on
a missing target node does not remove that node from the recursion
stack. -/
def hasCycleAux (nodes : List (String × Node)) :
    Nat → String → List String → List String →
    Bool × List String × List String
  | 0, _, visited, recStack => (false, visited, recStack)
  | fuel + 1, nodeId, visited, recStack =>
    let visited := nodeId :: visited
    let recStack := nodeId :: recStack
    match alookup nodes nodeId with
    | none => (false, visited, recStack)
    | some node =>
      match hasCycleBranches (hasCycleAux nodes fuel) node.branches visited recStack with
      | (true, v, r) => (true, v, r)
      | (false, v, r) => (false, v, r.erase nodeId)

/-- Top-level `has_cycle(root_id)` call with adequate fuel. -/
def has_cycle (nodes : List (String × Node)) (rootId : String) : Bool :=
  (hasCycleAux nodes (nodes.length + totalTargetCount nodes + 1) rootId [] []).1

/-- Mirror of the `_get_reachable_nodes` stack loop.  Each loop
iteration pops one entry; entries pushed are bounded by the total
branch-target count, so the fuel passed at top level never runs
out. -/
def getReachableAux (nodes : List (String × Node)) :
    Nat → List String → List String → List String
  | 0, _, reachable => reachable
  | _ + 1, [], reachable => reachable
  | fuel + 1, nodeId :: stack, reachable =>
    if reachable.contains nodeId then getReachableAux nodes fuel stack reachable
    else
      let reachable := nodeId :: reachable
      match alookup nodes nodeId with
      | none => getReachableAux nodes fuel stack reachable
      | some node =>
        let stack := node.branches.foldl
          (fun st b =>
            match truthyStr b.target_node with
            | some t => if reachable.contains t then st else t :: st
            | none => st)
          stack
        getReachableAux nodes fuel stack reachable

/-- Top-level `_get_reachable_nodes(start, nodes)` call. -/
def get_reachable_nodes (nodes : List (String × Node)) (start : String) :
    List String :=
  getReachableAux nodes (nodes.length + totalTargetCount nodes + 2) [start] []

/-- Mirror of `_validate_tree_properties`: root resolution (skipping
the remaining tree checks when unresolvable), root kind, cycle check,
reachability warning, and terminal-count check. -/
def validate_tree_properties (m : Model) (acc : VAcc) : VAcc :=
  match m.model_structure with
  | none => acc
  | some ms =>
    let nodes := ms.nodes
    match truthyStr ms.root_node with
    | none => acc.addError .noRootNode
    | some rootId =>
      match alookup nodes rootId with
      | none => acc.addError (.rootNotFound rootId)
      | some rootNode =>
        let acc :=
          if rootNode.node_type ≠ some "decision" then
            acc.addError (.rootNotDecision rootNode.node_type)
          else acc
        let acc := if has_cycle nodes rootId then acc.addError .cycleDetected else acc
        let unreachable := (akeys nodes).toFinset \ (get_reachable_nodes nodes rootId).toFinset
        let acc := if unreachable = ∅ then acc else acc.addWarning (.unreachableNodes unreachable)
        if (nodes.filter (fun p => decide (p.2.node_type = some "terminal"))).length = 0 then
          acc.addError .noTerminalNodes
        else acc

/-- The probability-sum tolerance (`tolerance = 1e-4`, modelled
exactly). -/
def probTolerance : Rat := mkRat 1 10000

/-- Per-branch body of the `_validate_probabilities` loop, threading
the running sum, the `prob_refs` list and the accumulators: a truthy
`parameter_ref` is recorded; a resolving one adds its base value
(default 0), an unresolved one appends the undefined-parameter
Error. -/
def probBranchStep (parameters : List (String × Param))
    (st : Rat × List String × VAcc) (b : Branch) : Rat × List String × VAcc :=
  match truthyStr (b.probability.bind ValueRef.parameter_ref) with
  | none => st
  | some probRef =>
    let refs := st.2.1 ++ [probRef]
    match alookup parameters probRef with
    | some param => (pyAdd st.1 (param.base_value.getD 0), refs, st.2.2)
    | none => (st.1, refs, st.2.2.addError (.undefinedParam probRef))

/-- Per-node body of `_validate_probabilities`: skip non-chance nodes,
fold the branches, then compare the sum against the tolerance. -/
def probNodeStep (parameters : List (String × Param)) (acc : VAcc)
    (p : String × Node) : VAcc :=
  if p.2.node_type ≠ some "chance" then acc
  else
    let st := p.2.branches.foldl (probBranchStep parameters) (0, [], acc)
    if pyAbs (pySub st.1 1) > probTolerance then
      st.2.2.addError (.probSumMismatch p.1 st.1 st.2.1)
    else st.2.2

/-- Mirror of `_validate_probabilities`.  Note the source reads
parameters via `self.model.get('parameters', {})` (absent defaults to
empty), and a looked-up parameter is used only if truthy — an empty
parameter dict is conflated here with an absent entry. -/
def validate_probabilities (m : Model) (acc : VAcc) : VAcc :=
  match m.model_structure with
  | none => acc
  | some ms =>
    ms.nodes.foldl (probNodeStep (m.parameters.getD [])) acc

/-- Truthy `parameter_ref` of an optional value slot
(`slot.get('x', {}).get('parameter_ref')` followed by an `if ref:`
test). -/
def truthyRefOf (vr : Option ValueRef) : Option String :=
  truthyStr (vr.bind ValueRef.parameter_ref)

/-- Insert into the referenced "set", determinized to first-insertion
order. -/
def addRef (l : List String) (r : String) : List String :=
  if l.contains r then l else l ++ [r]

/-- Optionally insert a slot's truthy reference. -/
def addRefOf (l : List String) (vr : Option ValueRef) : List String :=
  match truthyRefOf vr with
  | some r => addRef l r
  | none => l

/-- Reference collection of `_validate_parameter_references` for one
node: branch probabilities and initial costs, then terminal outcome
cost/utility values with durations and life-years. -/
def collectNodeRefs (acc : List String) (node : Node) : List String :=
  let acc := node.branches.foldl
    (fun acc b => addRefOf (addRefOf acc b.probability) b.initial_cost) acc
  match node.outcomes with
  | none => acc
  | some outc =>
    let acc := outc.costs.foldl
      (fun acc item => addRefOf (addRefOf acc item.value) item.duration_years) acc
    let acc := outc.utilities.foldl
      (fun acc item => addRefOf (addRefOf acc item.value) item.duration_years) acc
    addRefOf acc outc.life_years

/-- The full referenced-identifier collection over all nodes. -/
def collectReferenced (nodes : List (String × Node)) : List String :=
  nodes.foldl (fun acc p => collectNodeRefs acc p.2) []

/-- Mirror of `HTASchemaValidator._validate_parameter_references`
(reference closure): errors for referenced-but-undefined identifiers,
then the unused-parameter warning carrying the set difference. -/
def validate_parameter_references (m : Model) (acc : VAcc) : VAcc :=
  match m.model_structure, m.parameters with
  | some ms, some parameters =>
    let referenced := collectReferenced ms.nodes
    let acc := referenced.foldl
      (fun acc r =>
        if containsParam parameters r then acc
        else acc.addError (.referencedNotDefined r))
      acc
    let unused := (akeys parameters).toFinset \ referenced.toFinset
    if unused = ∅ then acc else acc.addWarning (.unusedParams unused)
  | _, _ => acc

/-- Per-parameter body of `_validate_parameter_ranges`: the type
if/elif chain, then the independent bounds checks (both
warning-severity). -/
def checkParamRange (acc : VAcc) (pid : String) (param : Param) : VAcc :=
  match param.base_value with
  | none => acc
  | some v =>
    let acc :=
      if param.type = some "probability" then
        if ¬(0 ≤ v ∧ v ≤ 1) then acc.addError (.probOutOfRange pid v) else acc
      else if param.type = some "utility" then
        if v < -1 ∨ v > 1 then acc.addWarning (.utilityOutOfRange pid v) else acc
      else if param.type = some "cost" then
        if v < 0 then acc.addWarning (.costNegative pid v) else acc
      else if param.type = some "rate" ∨ param.type = some "duration" then
        if v < 0 then acc.addError (.rateOrDurationNegative pid (pyShowOptStr param.type) v)
        else acc
      else if param.type = some "relative_risk" then
        if v ≤ 0 then acc.addError (.relativeRiskNonPositive pid v) else acc
      else acc
    match param.bounds with
    | none => acc
    | some b =>
      let acc :=
        match b.lower with
        | some lo => if v < lo then acc.addWarning (.belowLowerBound pid v lo) else acc
        | none => acc
      match b.upper with
      | some hi => if v > hi then acc.addWarning (.aboveUpperBound pid v hi) else acc
      | none => acc

/-- Mirror of `_validate_parameter_ranges`. -/
def validate_parameter_ranges (m : Model) (acc : VAcc) : VAcc :=
  match m.parameters with
  | none => acc
  | some parameters =>
    parameters.foldl (fun acc p => checkParamRange acc p.1 p.2) acc

/-- Mirror of `HTASchemaValidator.validate`: reset the accumulators,
bail out when no model is loaded (a falsy `self.model`), run the five
checks in order, and derive validity from error-list emptiness. -/
def validate (m : Option Model) : Bool × VAcc :=
  match m with
  | none => (false, ⟨[.noModelLoaded], []⟩)
  | some model =>
    let acc := validate_structure model {}
    let acc := validate_tree_properties model acc
    let acc := validate_probabilities model acc
    let acc := validate_parameter_references model acc
    let acc := validate_parameter_ranges model acc
    (acc.errors.isEmpty, acc)

/-- The embedding's float addition is exact rational addition. -/
theorem pyAdd_eq (a b : Rat) : pyAdd a b = a + b := by
  have ha : (a.den : Rat) ≠ 0 := by exact_mod_cast a.den_nz
  have hb : (b.den : Rat) ≠ 0 := by exact_mod_cast b.den_nz
  rw [pyAdd, Rat.mkRat_eq_div]
  conv_rhs => rw [← Rat.num_div_den a, ← Rat.num_div_den b]
  rw [div_add_div _ _ ha hb]
  push_cast
  ring_nf

/-- The embedding's float subtraction is exact rational subtraction. -/
theorem pySub_eq (a b : Rat) : pySub a b = a - b := by
  have ha : (a.den : Rat) ≠ 0 := by exact_mod_cast a.den_nz
  have hb : (b.den : Rat) ≠ 0 := by exact_mod_cast b.den_nz
  rw [pySub, Rat.mkRat_eq_div]
  conv_rhs => rw [← Rat.num_div_den a, ← Rat.num_div_den b]
  rw [div_sub_div _ _ ha hb]
  push_cast
  ring_nf

/-- The embedding's `abs` is the mathematical absolute value. -/
theorem pyAbs_eq (q : Rat) : pyAbs q = |q| := by
  rw [pyAbs]
  rcases lt_or_le q 0 with h | h
  · rw [if_pos h, abs_of_neg h]
  · rw [if_neg (not_lt.mpr h), abs_of_nonneg h]

/-- Successor relation of the branch-target graph: `b` is a truthy
branch target of the node stored under `a`. -/
def succRel (nodes : List (String × Node)) (a b : String) : Prop :=
  ∃ n, alookup nodes a = some n ∧ b ∈ branchTargets n

/-- Root node of the false-cycle model: two branches to the same
missing target `x`. -/
def falseCycleRoot : Node :=
  { node_type := some "decision",
    branches := [{ branch_id := some "b1", target_node := some "x" },
                 { branch_id := some "b2", target_node := some "x" }] }

/-- A terminal node with an empty outcomes payload. -/
def plainTerminal : Node := { node_type := some "terminal", outcomes := some {} }

/-- Node mapping of the false-cycle model. -/
def falseCycleNodes : List (String × Node) :=
  [("r", falseCycleRoot), ("t", plainTerminal)]

/-- A model whose branch-target structure is purely forward (the only
edges go from `r` to the nonexistent id `x`), hence acyclic. -/
def falseCycleModel : Model :=
  { schema_version := some "0.1.0"
    model_metadata := some { model_type := some "decision_tree" }
    model_structure := some { root_node := some "r", nodes := falseCycleNodes }
    parameters := some []
    analysis_settings := true }

/-- C2: the claim states that a purely forward/acyclic branch-target
structure never yields the cycle Error.  The code violates this: on
`falseCycleModel` the early return of `has_cycle` for the missing
target `x` skips `rec_stack.remove`, so the second branch to `x` is
classified as a back edge and the cycle Error is emitted, although no
identifier can reach itself through the branch-target relation. -/
theorem C2_false_cycle_on_acyclic_model :
    HDiag.cycleDetected ∈ (validate (some falseCycleModel)).2.errors ∧
    ¬ ∃ x, Relation.TransGen (succRel falseCycleNodes) x x := by
  refine ⟨by decide, ?_⟩
  have step : ∀ a b : String, succRel falseCycleNodes a b → a = "r" ∧ b = "x" := by
    rintro a b ⟨n, hn, hb⟩
    rw [falseCycleNodes] at hn
    simp only [alookup] at hn
    split_ifs at hn with h1 h2
    · simp only [Option.some.injEq] at hn
      subst hn
      refine ⟨h1.symm, ?_⟩
      have ht : branchTargets falseCycleRoot = ["x", "x"] := by decide
      rw [ht] at hb
      simpa using hb
    · simp only [Option.some.injEq] at hn
      subst hn
      have ht : branchTargets plainTerminal = [] := by decide
      rw [ht] at hb
      simp at hb
  rintro ⟨x, hx⟩
  have key : ∀ a b : String, Relation.TransGen (succRel falseCycleNodes) a b →
      a = "r" ∧ b = "x" := by
    intro a b h
    induction h with
    | single hs => exact step _ _ hs
    | tail _ hs ih =>
      have h2 := step _ _ hs
      rw [ih.2] at h2
      exact absurd h2.1 (by decide)
  obtain ⟨hx1, hx2⟩ := key x x hx
  rw [hx1] at hx2
  exact absurd hx2 (by decide)

/-- A model that passes every structural check but contains one
syntactically broken expression (`"(("` in a terminal cost value). -/
def exprOnlyBrokenModel : Model :=
  { schema_version := some "0.1.0"
    model_metadata := some { model_type := some "decision_tree" }
    model_structure := some
      { root_node := some "r"
        nodes := [
          ("r", { node_type := some "decision",
                  branches := [{ branch_id := some "b", target_node := some "t" }] }),
          ("t", { node_type := some "terminal",
                  outcomes := some
                    { costs := [{ value := some { expression := some "((" } }] } })] }
    parameters := some []
    analysis_settings := true }

/-- A model with a structural error (unsupported model type) and no
expressions at all. -/
def structOnlyBrokenModel : Model :=
  { schema_version := some "0.1.0"
    model_metadata := some { model_type := some "cohort" }
    model_structure := some
      { root_node := some "r"
        nodes := [
          ("r", { node_type := some "decision",
                  branches := [{ branch_id := some "b", target_node := some "t" }] }),
          ("t", plainTerminal)] }
    parameters := some []
    analysis_settings := true }

/-- C1 counterexample: no single validation invocation aggregates both
the structural pass and the expression checks.  `HTASchemaValidator.
validate` declares `exprOnlyBrokenModel` fully valid although its
expression checker finds an Error in it, and `validate_model_expressions`
declares `structOnlyBrokenModel` valid although the structural pass
finds an Error in it — so neither entry point produces the single
aggregated diagnostic sequence the claim describes. -/
theorem C1_two_disjoint_validators :
    (validate (some exprOnlyBrokenModel)).1 = true ∧
    (validate (some exprOnlyBrokenModel)).2.errors = [] ∧
    (validate_model_expressions exprOnlyBrokenModel).1 = false ∧
    (validate (some structOnlyBrokenModel)).1 = false ∧
    (validate_model_expressions structOnlyBrokenModel).1 = true ∧
    (validate_model_expressions structOnlyBrokenModel).2 = [] := by
  exact ⟨by decide, by decide, by decide, by decide, by decide, by decide⟩

/-- C3 counterexample: the expression `"x / 2"` passes the full syntax
pass and contains a division, so the claim demands the pass-4 division
warning regardless of the pass-3 outcome; but pass 3 fails (`x` is not
in the empty registry) and the produced diagnostics contain no
warning-severity entry at all. -/
theorem C3_pass3_error_suppresses_warnings :
    check_balanced_parens "x / 2".toList = true ∧
    invalidCharsOf "x / 2".toList = [] ∧
    firstBadPattern "x / 2".toList = none ∧
    "x / 2".toList.contains '/' = true ∧
    (validate_expression [] "x / 2" "loc" []).2 =
      [⟨.unresolvedParam "x", "loc", some "x / 2", .error⟩] := by
  exact ⟨by decide, by decide, by decide, by decide, by decide⟩

/-- The chance-node branch whose probability slot carries an
expression rather than a parameter reference. -/
def noRefBranch : Branch :=
  { branch_id := some "cb1", target_node := some "t",
    probability := some { expression := some "0.5 + 0.5" } }

/-- The chance node owning `noRefBranch` plus one fully-referenced
branch whose parameter has base value 1. -/
def noRefChanceNode : Node :=
  { node_type := some "chance",
    branches := [noRefBranch,
                 { branch_id := some "cb2", target_node := some "t",
                   probability := some { parameter_ref := some "p" } }] }

/-- Node mapping containing a chance node with one reference-free
probability branch and one fully-referenced branch summing to 1. -/
def noRefBranchNodes : List (String × Node) :=
  [("r", { node_type := some "decision",
           branches := [{ branch_id := some "b", target_node := some "c" }] }),
   ("c", noRefChanceNode),
   ("t", plainTerminal)]

/-- Model for the C4 counterexample. -/
def noRefBranchModel : Model :=
  { schema_version := some "0.1.0"
    model_metadata := some { model_type := some "decision_tree" }
    model_structure := some { root_node := some "r", nodes := noRefBranchNodes }
    parameters := some [("p", { base_value := some (mkRat 1 1) })]
    analysis_settings := true }

/-- C4 counterexample: the branch `noRefBranch` of chance node `c`
carries no parameter reference in its probability slot, so the claim
demands a separate Error for it; the code skips such branches
silently, and the whole validation run reports no Error at all. -/
theorem C4_missing_ref_not_reported :
    noRefBranch.probability.bind ValueRef.parameter_ref = none ∧
    (∃ node, alookup noRefBranchNodes "c" = some node ∧
      node.node_type = some "chance" ∧ noRefBranch ∈ node.branches) ∧
    (validate (some noRefBranchModel)).2.errors = [] ∧
    (validate (some noRefBranchModel)).1 = true := by
  exact ⟨by decide, ⟨noRefChanceNode, by decide, by decide, by decide⟩,
    by decide, by decide⟩

/-- A token of an expression: a maximal run of identifier-class
characters (`[a-zA-Z0-9_-]`), as the claim describes it — nonempty,
all characters in the class, and bordered on both sides by the string
boundary or a character outside the class. -/
def IsMaxToken (s t : List Char) : Prop :=
  t ≠ [] ∧ (∀ c ∈ t, isTokenChar c = true) ∧
  ∃ pre post, s = pre ++ t ++ post ∧
    (pre = [] ∨ ∃ p c, pre = p ++ [c] ∧ isTokenChar c = false) ∧
    (post = [] ∨ ∃ c p', post = c :: p' ∧ isTokenChar c = false)

/-- C6 counterexample: in the expression `"_x"` the single maximal
token is `_x` (followed by nothing, hence by no opening parenthesis,
and in neither the function table nor the keywords); the registry is
empty, so the claim demands an unresolved-identifier Error for it, but
pass 3 extracts nothing (the identifier regex requires a letter start
at a word boundary, which `_` defeats) and emits no diagnostic. -/
theorem C6_underscore_token_never_checked :
    IsMaxToken "_x".toList "_x".toList ∧
    ("_x" ∈ FUNCTION_NAMES) = False ∧
    ("_x" ∈ KEYWORDS) = False ∧
    containsParam [] "_x" = false ∧
    validateParamRefsPass [] "_x" "loc" [] = (true, []) := by
  refine ⟨⟨by decide, by decide, [], [], by decide, Or.inl rfl, Or.inl rfl⟩,
    by decide, by decide, by decide, by decide⟩

/-- Outcomes payload whose single cost-value slot holds the expression
`"p"`. -/
def exprRefOutcomes : Outcomes :=
  { costs := [{ value := some { expression := some "p" } }] }

/-- The terminal node carrying `exprRefOutcomes`. -/
def exprRefTerminal : Node :=
  { node_type := some "terminal", outcomes := some exprRefOutcomes }

/-- Node mapping whose terminal cost-value slot holds the expression
`"p"`, a reference to the defined parameter `p` in expression form. -/
def exprRefOnlyNodes : List (String × Node) :=
  [("r", { node_type := some "decision",
           branches := [{ branch_id := some "b", target_node := some "t" }] }),
   ("t", exprRefTerminal)]

/-- Model for the C7 counterexample. -/
def exprRefOnlyModel : Model :=
  { schema_version := some "0.1.0"
    model_metadata := some { model_type := some "decision_tree" }
    model_structure := some { root_node := some "r", nodes := exprRefOnlyNodes }
    parameters := some [("p", { base_value := some (mkRat 100 1) })]
    analysis_settings := true }

/-- C7 counterexample: the cost-value slot of terminal `t` references
the defined parameter `p` in expression form (the expression validator
itself resolves it without any diagnostic), yet the reference-closure
check still reports `p` with the unused-parameter Warning, because it
only collects `parameter_ref`-form occurrences. -/
theorem C7_expression_reference_counted_unused :
    (∃ node outc, alookup exprRefOnlyNodes "t" = some node ∧
      node.outcomes = some outc ∧
      outc.costs = [{ value := some { expression := some "p" } }]) ∧
    containsParam [("p", { base_value := some (mkRat 100 1) })] "p" = true ∧
    (validate_model_expressions exprRefOnlyModel).2 = [] ∧
    HDiag.unusedParams {"p"} ∈ (validate (some exprRefOnlyModel)).2.warnings := by
  exact ⟨⟨exprRefTerminal, exprRefOutcomes, by decide, by decide, by decide⟩,
    by decide, by decide, by decide⟩

/-- Outcome of the syntax pass as a function of the expression alone. -/
def syntaxOk (e : String) : Bool :=
  if !check_balanced_parens e.toList then false
  else if invalidCharsOf e.toList ≠ [] then false
  else (firstBadPattern e.toList).isNone

/-- Diagnostics the syntax pass appends. -/
def syntaxDiags (e l : String) : List ValidationError :=
  if !check_balanced_parens e.toList then [⟨.unbalanced, l, some e, .error⟩]
  else if invalidCharsOf e.toList ≠ [] then
    [⟨.invalidChars (invalidCharsOf e.toList), l, some e, .error⟩]
  else
    match firstBadPattern e.toList with
    | some p => [⟨.badOpSeq p, l, some e, .error⟩]
    | none => []

/-- The syntax pass returns its verdict and appends its diagnostics. -/
theorem validateSyntaxPass_eq (e l : String) (errs : List ValidationError) :
    validateSyntaxPass e l errs = (syntaxOk e, errs ++ syntaxDiags e l) := by
  rw [validateSyntaxPass, syntaxOk, syntaxDiags]
  split_ifs with h1 h2
  · simp
  · simp
  · cases hf : firstBadPattern e.toList <;> simp [hf]

/-- A fold appending one error-severity diagnostic per failing element
evaluates to the conjunction verdict and the mapped failure list. -/
theorem appendFold_eq {α : Type} (C : α → Bool) (mk : α → ValidationError)
    (xs : List α) (st : Bool × List ValidationError) :
    xs.foldl (fun st x => if C x then st else (false, st.2 ++ [mk x])) st
      = (st.1 && xs.all C, st.2 ++ (xs.filter (fun x => !C x)).map mk) := by
  induction xs generalizing st with
  | nil => simp
  | cons x xs ih =>
    simp only [List.foldl_cons, List.all_cons, List.filter_cons]
    by_cases h : C x
    · simp only [if_pos h, ih, h, Bool.true_and, Bool.not_true, Bool.false_eq_true,
        ite_false, if_neg]
      simp [h]
    · simp only [Bool.not_eq_true] at h
      simp only [h, if_false, ih, Bool.false_and, Bool.and_false, Bool.not_false,
        ite_true]
      simp [List.append_assoc]

/-- Verdict of pass 3's parameter-reference resolution. -/
def refsOk (params : List (String × Param)) (e : String) : Bool :=
  (extractParams e).all (fun p => containsParam params p)

/-- Diagnostics pass 3's parameter-reference resolution appends. -/
def refsDiags (params : List (String × Param)) (e l : String) :
    List ValidationError :=
  ((extractParams e).filter (fun p => !containsParam params p)).map
    (fun p => ⟨.unresolvedParam p, l, some e, .error⟩)

/-- The parameter-reference pass returns its verdict and appends its
diagnostics. -/
theorem validateParamRefsPass_eq (params : List (String × Param))
    (e l : String) (errs : List ValidationError) :
    validateParamRefsPass params e l errs = (refsOk params e, errs ++ refsDiags params e l) := by
  rw [validateParamRefsPass, refsOk, refsDiags]
  rw [appendFold_eq (fun p => containsParam params p)
    (fun p => ⟨.unresolvedParam p, l, some e, .error⟩) (extractParams e) (true, errs)]
  simp

/-- Verdict of the function-name pass. -/
def funcsOk (e : String) : Bool :=
  (findFuncCalls e.toList).all (fun f => FUNCTION_NAMES.contains f)

/-- Diagnostics the function-name pass appends (one per occurrence). -/
def funcsDiags (e l : String) : List ValidationError :=
  ((findFuncCalls e.toList).filter (fun f => !FUNCTION_NAMES.contains f)).map
    (fun f => ⟨.unknownFunc f, l, some e, .error⟩)

/-- The function-name pass returns its verdict and appends its
diagnostics. -/
theorem validateFunctionsPass_eq (e l : String) (errs : List ValidationError) :
    validateFunctionsPass e l errs = (funcsOk e, errs ++ funcsDiags e l) := by
  rw [validateFunctionsPass, funcsOk, funcsDiags]
  rw [appendFold_eq (fun f => FUNCTION_NAMES.contains f)
    (fun f => ⟨.unknownFunc f, l, some e, .error⟩) (findFuncCalls e.toList) (true, errs)]
  simp

/-- Diagnostics of the advisory-warning pass. -/
def warnDiags (e l : String) : List ValidationError :=
  (if e.toList.contains '/' then [⟨.divisionWarn, l, some e, .warning⟩] else []) ++
  (if e.toList.contains '^' then [⟨.powWarn, l, some e, .warning⟩] else []) ++
  (if e.length > 200 then [⟨.longWarn, l, some e, .warning⟩] else [])

/-- The warning pass appends its diagnostics. -/
theorem check_expression_warnings_eq (e l : String) (errs : List ValidationError) :
    check_expression_warnings e l errs = errs ++ warnDiags e l := by
  rw [check_expression_warnings, warnDiags]
  split_ifs <;> simp

/-- A passing syntax verdict appends nothing. -/
theorem syntaxDiags_eq_nil (e l : String) (h : syntaxOk e = true) :
    syntaxDiags e l = [] := by
  rw [syntaxOk] at h
  rw [syntaxDiags]
  split_ifs at h ⊢
  cases hf : firstBadPattern e.toList
  · rfl
  · rw [hf] at h
    simp at h

/-- A passing reference verdict appends nothing. -/
theorem refsDiags_eq_nil (params : List (String × Param)) (e l : String)
    (h : refsOk params e = true) : refsDiags params e l = [] := by
  rw [refsOk] at h
  rw [refsDiags, List.filter_eq_nil_iff.mpr, List.map_nil]
  intro p hp
  simp [List.all_eq_true.mp h p hp]

/-- A passing function verdict appends nothing. -/
theorem funcsDiags_eq_nil (e l : String) (h : funcsOk e = true) :
    funcsDiags e l = [] := by
  rw [funcsOk] at h
  rw [funcsDiags, List.filter_eq_nil_iff.mpr, List.map_nil]
  intro f hf
  simpa using List.all_eq_true.mp h f hf

/-- Full evaluation of `validate_expression`: the ordered passes with
their early returns, written over the per-pass verdicts and appended
diagnostic lists. -/
theorem validate_expression_eq (params : List (String × Param))
    (e l : String) (errs : List ValidationError) :
    validate_expression params e l errs =
      if e.toList.all pyIsSpace then (false, errs ++ [⟨.emptyExpr, l, some e, .error⟩])
      else if syntaxOk e = false then (false, errs ++ syntaxDiags e l)
      else if refsOk params e = false then (false, errs ++ refsDiags params e l)
      else if funcsOk e = false then (false, errs ++ funcsDiags e l)
      else (countErrors (errs ++ warnDiags e l) == 0, errs ++ warnDiags e l) := by
  rw [validate_expression]
  by_cases h0 : e.toList.all pyIsSpace
  · rw [if_pos h0, if_pos h0]
  · rw [if_neg h0, if_neg h0, validateSyntaxPass_eq]
    by_cases h1 : syntaxOk e
    · rw [syntaxDiags_eq_nil e l h1, List.append_nil, h1]
      rw [if_neg (by simp)]
      simp only []
      rw [validateParamRefsPass_eq]
      by_cases h2 : refsOk params e
      · rw [refsDiags_eq_nil params e l h2, List.append_nil, h2]
        rw [if_neg (by simp)]
        simp only []
        rw [validateFunctionsPass_eq]
        by_cases h3 : funcsOk e
        · rw [funcsDiags_eq_nil e l h3, List.append_nil, h3]
          rw [if_neg (by simp)]
          simp only []
          rw [check_expression_warnings_eq]
        · simp only [Bool.not_eq_true] at h3
          rw [h3, if_pos rfl]
      · simp only [Bool.not_eq_true] at h2
        rw [h2, if_pos rfl]
    · simp only [Bool.not_eq_true] at h1
      rw [h1, if_pos rfl]

/-- Error counting distributes over append. -/
theorem countErrors_append (a b : List ValidationError) :
    countErrors (a ++ b) = countErrors a + countErrors b := by
  simp [countErrors, List.filter_append]

/-- A failing syntax verdict appends exactly one error. -/
theorem countErrors_syntaxDiags (e l : String) (h : syntaxOk e = false) :
    countErrors (syntaxDiags e l) = 1 := by
  rw [syntaxOk] at h
  rw [syntaxDiags]
  split_ifs at h ⊢
  · simp [countErrors]
  · simp [countErrors]
  · cases hf : firstBadPattern e.toList
    · rw [hf] at h
      simp at h
    · simp [countErrors]

/-- Counting errors in a list of uniformly error-severity diagnostics
counts its length. -/
theorem countErrors_map_mk {α : Type} (mk : α → ValidationError)
    (h : ∀ x, (mk x).severity = .error) (xs : List α) :
    countErrors (xs.map mk) = xs.length := by
  rw [countErrors, List.filter_eq_self.mpr]
  · exact List.length_map xs mk
  · intro d hd
    obtain ⟨x, hx, rfl⟩ := List.mem_map.mp hd
    simp [h x]

/-- The advisory-warning pass appends no error-severity diagnostics. -/
theorem countErrors_warnDiags (e l : String) : countErrors (warnDiags e l) = 0 := by
  rw [warnDiags]
  split_ifs <;> simp [countErrors]

/-- A failed `all` leaves a nonempty failure filter. -/
theorem filter_not_nil_of_all_false {α : Type} (C : α → Bool) (xs : List α)
    (h : xs.all C = false) : (xs.filter (fun x => !C x)) ≠ [] := by
  rw [List.all_eq_false] at h
  obtain ⟨x, hx, hC⟩ := h
  exact List.ne_nil_of_mem (List.mem_filter.mpr ⟨hx, by simp [hC]⟩)

/-- C10: the boolean returned by `validate_expression` reflects the
validator's entire accumulated diagnostic state: it is `True` exactly
when, after the call, the accumulated list contains no error-severity
entry — so an Error left by an earlier expression forces `False` even
for a clean input expression. -/
theorem C10_verdict_reflects_accumulated_state
    (params : List (String × Param)) (e l : String)
    (prior : List ValidationError) :
    (validate_expression params e l prior).1 = true ↔
      countErrors (validate_expression params e l prior).2 = 0 := by
  rw [validate_expression_eq]
  split_ifs with h0 h1 h2 h3
  · refine iff_of_false (by simp) ?_
    rw [countErrors_append]
    simp [countErrors]
  · refine iff_of_false (by simp) ?_
    rw [countErrors_append, countErrors_syntaxDiags e l h1]
    omega
  · refine iff_of_false (by simp) ?_
    rw [countErrors_append]
    rw [refsDiags, countErrors_map_mk _ (fun x => rfl)]
    have := filter_not_nil_of_all_false _ _ h2
    have hlen := List.length_pos.mpr this
    omega
  · refine iff_of_false (by simp) ?_
    rw [countErrors_append]
    rw [funcsDiags, countErrors_map_mk _ (fun x => rfl)]
    have := filter_not_nil_of_all_false _ _ h3
    have hlen := List.length_pos.mpr this
    omega
  · simp

/-- Syntax-pass diagnostics are all error-severity. -/
theorem syntaxDiags_all_error (e l : String) :
    ∀ d ∈ syntaxDiags e l, d.severity = .error := by
  rw [syntaxDiags]
  split_ifs
  · intro d hd
    simp only [List.mem_singleton] at hd
    subst hd
    rfl
  · intro d hd
    simp only [List.mem_singleton] at hd
    subst hd
    rfl
  · cases hf : firstBadPattern e.toList
    · simp
    · intro d hd
      simp only [List.mem_singleton] at hd
      subst hd
      rfl

/-- A list of error-severity diagnostics contains no warning. -/
theorem anyWarning_false_of_all_error (l : List ValidationError)
    (h : ∀ d ∈ l, d.severity = .error) :
    l.any (fun d => decide (d.severity = .warning)) = false := by
  rw [List.any_eq_false]
  intro d hd
  simp [h d hd]

/-- C3 amended: each `validate_expression` call appends its
diagnostics after the already-accumulated ones, and the appended
diagnostics contain a pass-4 advisory warning if and only if the
expression is non-blank, passes the syntax pass, resolves all
parameter references, uses only known function names, and triggers one
of the three advisory conditions.  In particular a pass-3 failure
(unresolved reference or unknown function) suppresses all pass-4
warnings. -/
theorem C3_amended_warnings_require_pass3
    (params : List (String × Param)) (e l : String)
    (prior : List ValidationError) :
    (validate_expression params e l prior).2 = prior ++ (validate_expression params e l []).2 ∧
    ((validate_expression params e l []).2.any (fun d => decide (d.severity = .warning)) = true ↔
      (e.toList.all pyIsSpace = false ∧ syntaxOk e = true ∧
       refsOk params e = true ∧ funcsOk e = true ∧
       (e.toList.contains '/' = true ∨ e.toList.contains '^' = true ∨ 200 < e.length))) := by
  constructor
  · rw [validate_expression_eq params e l prior, validate_expression_eq params e l []]
    split_ifs <;> simp
  · rw [validate_expression_eq params e l []]
    split_ifs with h0 h1 h2 h3
    · refine iff_of_false ?_ ?_
      · simp only [List.nil_append, Bool.not_eq_true]
        rfl
      · rintro ⟨ha, -⟩
        rw [h0] at ha
        cases ha
    · refine iff_of_false ?_ ?_
      · simp only [List.nil_append, Bool.not_eq_true]
        exact anyWarning_false_of_all_error _ (syntaxDiags_all_error e l)
      · rintro ⟨-, hb, -⟩
        rw [h1] at hb
        cases hb
    · refine iff_of_false ?_ ?_
      · simp only [List.nil_append, Bool.not_eq_true]
        apply anyWarning_false_of_all_error
        intro d hd
        rw [refsDiags] at hd
        obtain ⟨x, hx, rfl⟩ := List.mem_map.mp hd
        rfl
      · rintro ⟨-, -, hc, -⟩
        rw [h2] at hc
        cases hc
    · refine iff_of_false ?_ ?_
      · simp only [List.nil_append, Bool.not_eq_true]
        apply anyWarning_false_of_all_error
        intro d hd
        rw [funcsDiags] at hd
        obtain ⟨x, hx, rfl⟩ := List.mem_map.mp hd
        rfl
      · rintro ⟨-, -, -, hd, -⟩
        rw [h3] at hd
        cases hd
    · simp only [Bool.not_eq_false] at h0 h1 h2 h3
      simp only [Bool.not_eq_true] at h0
      rw [iff_true_intro h0, iff_true_intro h1, iff_true_intro h2, iff_true_intro h3]
      simp only [true_and, List.nil_append]
      rw [warnDiags]
      split_ifs with w1 w2 w3 <;>
        simp_all [List.any_append]

/-- Generic decomposition for accumulator folds whose step appends
per-item diagnostics. -/
theorem vaccFoldDiags_eq {α : Type} (g : VAcc → α → VAcc)
    (errsOf warnsOf : α → List HDiag)
    (hg : ∀ acc x, g acc x = ⟨acc.errors ++ errsOf x, acc.warnings ++ warnsOf x⟩)
    (xs : List α) (acc : VAcc) :
    xs.foldl g acc =
      ⟨acc.errors ++ xs.flatMap errsOf, acc.warnings ++ xs.flatMap warnsOf⟩ := by
  induction xs generalizing acc with
  | nil => simp
  | cons x xs ih =>
    rw [List.foldl_cons, ih, hg]
    simp

/-- Generic decomposition for diagnostic-list folds whose step appends
per-item diagnostics. -/
theorem listFoldDiags_eq {α : Type} (g : List ValidationError → α → List ValidationError)
    (diagsOf : α → List ValidationError)
    (hg : ∀ errs x, g errs x = errs ++ diagsOf x)
    (xs : List α) (errs : List ValidationError) :
    xs.foldl g errs = errs ++ xs.flatMap diagsOf := by
  induction xs generalizing errs with
  | nil => simp
  | cons x xs ih =>
    rw [List.foldl_cons, ih, hg]
    simp

/-- The truthy probability reference of a branch
(`branch.get('probability', {}).get('parameter_ref')` under
`if prob_ref:`). -/
def branchRefOf (b : Branch) : Option String :=
  truthyStr (b.probability.bind ValueRef.parameter_ref)

/-- What one branch contributes to its chance node's probability sum:
the base value (default 0) of its resolving truthy reference, and 0
for a missing or unresolved reference. -/
def branchContribution (parameters : List (String × Param)) (b : Branch) : Rat :=
  match branchRefOf b with
  | some r =>
    match alookup parameters r with
    | some p => p.base_value.getD 0
    | none => 0
  | none => 0

/-- The `prob_refs` list of a chance node: all truthy references in
branch order. -/
def probRefsOf (bs : List Branch) : List String := bs.filterMap branchRefOf

/-- Undefined-parameter Errors of a chance node's branches, in branch
order. -/
def probErrsOf (parameters : List (String × Param)) (bs : List Branch) :
    List HDiag :=
  bs.filterMap (fun b =>
    match branchRefOf b with
    | some r => if (alookup parameters r).isSome then none
                else some (.undefinedParam r)
    | none => none)

/-- Running probability sum across a branch list, starting from `q`. -/
def probSumFrom (parameters : List (String × Param)) (bs : List Branch)
    (q : Rat) : Rat :=
  bs.foldl (fun q b => pyAdd q (branchContribution parameters b)) q

/-- The probability sum of a chance node (`prob_sum`, started at 0.0). -/
def probSumOf (parameters : List (String × Param)) (node : Node) : Rat :=
  probSumFrom parameters node.branches 0

/-- Adding a zero contribution with `pyAdd` is the identity. -/
theorem pyAdd_zero (q : Rat) : pyAdd q 0 = q := by
  rw [pyAdd_eq]
  ring

/-- A branch without a truthy reference contributes zero. -/
theorem branchContribution_of_none (parameters : List (String × Param))
    {b : Branch} (h : branchRefOf b = none) :
    branchContribution parameters b = 0 := by
  rw [branchContribution, h]

/-- A branch whose truthy reference resolves contributes the base
value (default 0). -/
theorem branchContribution_of_defined (parameters : List (String × Param))
    {b : Branch} {r : String} {p : Param} (h : branchRefOf b = some r)
    (hl : alookup parameters r = some p) :
    branchContribution parameters b = p.base_value.getD 0 := by
  simp only [branchContribution, h, hl]

/-- A branch whose truthy reference does not resolve contributes
zero. -/
theorem branchContribution_of_undefined (parameters : List (String × Param))
    {b : Branch} {r : String} (h : branchRefOf b = some r)
    (hl : alookup parameters r = none) :
    branchContribution parameters b = 0 := by
  simp only [branchContribution, h, hl]

/-- Unfolding one branch of the running sum. -/
theorem probSumFrom_cons (parameters : List (String × Param)) (b : Branch)
    (bs : List Branch) (q : Rat) :
    probSumFrom parameters (b :: bs) q =
      probSumFrom parameters bs (pyAdd q (branchContribution parameters b)) := by
  rw [probSumFrom, probSumFrom, List.foldl_cons]

/-- Full evaluation of the branch fold of `_validate_probabilities`. -/
theorem probBranchFold_eq (parameters : List (String × Param))
    (bs : List Branch) (q : Rat) (rs : List String) (acc : VAcc) :
    bs.foldl (probBranchStep parameters) (q, rs, acc) =
      (probSumFrom parameters bs q, rs ++ probRefsOf bs,
       ⟨acc.errors ++ probErrsOf parameters bs, acc.warnings⟩) := by
  induction bs generalizing q rs acc with
  | nil => simp [probSumFrom, probRefsOf, probErrsOf]
  | cons b bs ih =>
    rw [List.foldl_cons, probSumFrom_cons]
    cases hr : branchRefOf b with
    | none =>
      have h1 : probBranchStep parameters (q, rs, acc) b = (q, rs, acc) := by
        rw [branchRefOf] at hr
        simp only [probBranchStep, hr]
      rw [h1, ih, branchContribution_of_none parameters hr, pyAdd_zero]
      have h2 : probRefsOf (b :: bs) = probRefsOf bs := by
        simp [probRefsOf, List.filterMap_cons, hr]
      have h3 : probErrsOf parameters (b :: bs) = probErrsOf parameters bs := by
        simp [probErrsOf, List.filterMap_cons, hr]
      rw [h2, h3]
    | some r =>
      have hr' : truthyStr (b.probability.bind ValueRef.parameter_ref) = some r := hr
      have h2 : probRefsOf (b :: bs) = r :: probRefsOf bs := by
        simp [probRefsOf, List.filterMap_cons, hr]
      cases hl : alookup parameters r with
      | some p =>
        have h1 : probBranchStep parameters (q, rs, acc) b =
            (pyAdd q (p.base_value.getD 0), rs ++ [r], acc) := by
          simp only [probBranchStep, hr', hl]
        have h3 : probErrsOf parameters (b :: bs) = probErrsOf parameters bs := by
          simp [probErrsOf, List.filterMap_cons, hr, hl]
        rw [h1, ih, branchContribution_of_defined parameters hr hl, h2, h3]
        simp
      | none =>
        have h1 : probBranchStep parameters (q, rs, acc) b =
            (q, rs ++ [r], acc.addError (.undefinedParam r)) := by
          simp only [probBranchStep, hr', hl]
        have h3 : probErrsOf parameters (b :: bs) =
            HDiag.undefinedParam r :: probErrsOf parameters bs := by
          simp [probErrsOf, List.filterMap_cons, hr, hl]
        rw [h1, ih, branchContribution_of_undefined parameters hr hl, pyAdd_zero,
          h2, h3]
        simp [VAcc.addError]

/-- Flat-mapping the empty list yields the empty list. -/
theorem flatMap_const_nil {α β : Type} (l : List α) :
    l.flatMap (fun _ => ([] : List β)) = [] := by
  induction l <;> simp [*]

/-- Errors one node contributes to the probability check: nothing for
non-chance nodes; otherwise the per-branch undefined-parameter Errors
followed by the sum-mismatch Error when the tolerance is exceeded. -/
def probNodeErrs (parameters : List (String × Param)) (p : String × Node) :
    List HDiag :=
  if p.2.node_type ≠ some "chance" then []
  else
    probErrsOf parameters p.2.branches ++
      (if pyAbs (pySub (probSumOf parameters p.2) 1) > probTolerance then
        [.probSumMismatch p.1 (probSumOf parameters p.2) (probRefsOf p.2.branches)]
      else [])

/-- One probability-check node step appends exactly its node errors
and no warnings. -/
theorem probNodeStep_eq (parameters : List (String × Param)) (acc : VAcc)
    (p : String × Node) :
    probNodeStep parameters acc p =
      ⟨acc.errors ++ probNodeErrs parameters p, acc.warnings⟩ := by
  rw [probNodeStep, probNodeErrs]
  by_cases h1 : p.2.node_type ≠ some "chance"
  · rw [if_pos h1, if_pos h1]
    simp
  · rw [if_neg h1, if_neg h1]
    simp only [probBranchFold_eq, List.nil_append, probSumOf]
    by_cases h2 : pyAbs (pySub (probSumFrom parameters p.2.branches 0) 1) > probTolerance
    · rw [if_pos h2, if_pos h2]
      simp [VAcc.addError]
    · rw [if_neg h2, if_neg h2]
      simp

/-- Full decomposition of `_validate_probabilities`: it appends, per
node in mapping order, that node's probability errors, and never warns. -/
theorem validate_probabilities_eq (m : Model) (acc : VAcc) :
    validate_probabilities m acc =
      match m.model_structure with
      | none => acc
      | some ms =>
        ⟨acc.errors ++ ms.nodes.flatMap (probNodeErrs (m.parameters.getD [])),
         acc.warnings⟩ := by
  rw [validate_probabilities]
  cases hms : m.model_structure with
  | none => rfl
  | some ms =>
    show ms.nodes.foldl (probNodeStep (m.parameters.getD [])) acc =
      ⟨acc.errors ++ ms.nodes.flatMap (probNodeErrs (m.parameters.getD [])),
       acc.warnings⟩
    rw [vaccFoldDiags_eq (probNodeStep (m.parameters.getD []))
      (probNodeErrs (m.parameters.getD [])) (fun _ => [])
      (fun acc p => by rw [probNodeStep_eq]; simp) ms.nodes acc]
    rw [flatMap_const_nil, List.append_nil]

/-- Errors of the reference-closure check: one per collected reference
missing from the parameter mapping, in collection order. -/
def refsCheckErrs (ms : ModelStructure) (parameters : List (String × Param)) :
    List HDiag :=
  ((collectReferenced ms.nodes).filter (fun r => !containsParam parameters r)).map
    HDiag.referencedNotDefined

/-- The set `defined - referenced` of the unused-parameter warning. -/
def unusedSetOf (ms : ModelStructure) (parameters : List (String × Param)) :
    Finset String :=
  (akeys parameters).toFinset \ (collectReferenced ms.nodes).toFinset

/-- Warnings of the reference-closure check. -/
def refsCheckWarns (ms : ModelStructure) (parameters : List (String × Param)) :
    List HDiag :=
  if unusedSetOf ms parameters = ∅ then []
  else [.unusedParams (unusedSetOf ms parameters)]

/-- The referenced-identifier error fold appends one error per
unresolvable reference. -/
theorem refErrFold_eq (parameters : List (String × Param)) (rs : List String)
    (acc : VAcc) :
    rs.foldl
      (fun acc r =>
        if containsParam parameters r then acc
        else acc.addError (.referencedNotDefined r)) acc =
      ⟨acc.errors ++ (rs.filter (fun r => !containsParam parameters r)).map
         HDiag.referencedNotDefined,
       acc.warnings⟩ := by
  induction rs generalizing acc with
  | nil => simp
  | cons r rs ih =>
    rw [List.foldl_cons]
    by_cases h : containsParam parameters r
    · rw [if_pos h, ih]
      simp [List.filter_cons, h]
    · rw [if_neg h, ih]
      simp [List.filter_cons, h, VAcc.addError]

/-- Full decomposition of the reference-closure check. -/
theorem validate_parameter_references_eq (m : Model) (acc : VAcc) :
    validate_parameter_references m acc =
      match m.model_structure, m.parameters with
      | some ms, some parameters =>
        ⟨acc.errors ++ refsCheckErrs ms parameters,
         acc.warnings ++ refsCheckWarns ms parameters⟩
      | _, _ => acc := by
  rw [validate_parameter_references]
  cases hms : m.model_structure with
  | none => rfl
  | some ms =>
    cases hp : m.parameters with
    | none => rfl
    | some parameters =>
      show (let referenced := collectReferenced ms.nodes
        let acc := referenced.foldl
          (fun acc r =>
            if containsParam parameters r then acc
            else acc.addError (.referencedNotDefined r)) acc
        let unused := (akeys parameters).toFinset \ referenced.toFinset
        if unused = ∅ then acc else acc.addWarning (.unusedParams unused)) =
        ⟨acc.errors ++ refsCheckErrs ms parameters,
         acc.warnings ++ refsCheckWarns ms parameters⟩
      simp only [refErrFold_eq]
      rw [refsCheckWarns, refsCheckErrs, unusedSetOf]
      split_ifs with h
      · simp
      · simp [VAcc.addWarning]

/-- Errors of the structural check. -/
def structErrs (m : Model) : List HDiag :=
  (if m.schema_version.isNone then [HDiag.missingField "schema_version"] else []) ++
  (if m.model_metadata.isNone then [HDiag.missingField "model_metadata"] else []) ++
  (if m.model_structure.isNone then [HDiag.missingField "model_structure"] else []) ++
  (if m.parameters.isNone then [HDiag.missingField "parameters"] else []) ++
  (if !m.analysis_settings then [HDiag.missingField "analysis_settings"] else []) ++
  (match m.model_metadata with
   | some md =>
     if md.model_type ≠ some "decision_tree" then
       [HDiag.unsupportedModelType md.model_type]
     else []
   | none => [])

/-- Warnings of the structural check. -/
def structWarns (m : Model) : List HDiag :=
  match m.schema_version with
  | some v => if !pyStartsWith v "0.1." then [HDiag.versionMismatch v] else []
  | none => []

/-- Full decomposition of `_validate_structure`. -/
theorem addErrorIf_frame (c : Prop) [Decidable c] (d : HDiag) (acc : VAcc) :
    (if c then acc.addError d else acc) =
      ⟨acc.errors ++ (if c then [d] else []), acc.warnings⟩ := by
  split_ifs <;> simp [VAcc.addError]

theorem addWarningIf_frame (c : Prop) [Decidable c] (d : HDiag) (acc : VAcc) :
    (if c then acc.addWarning d else acc) =
      ⟨acc.errors, acc.warnings ++ (if c then [d] else [])⟩ := by
  split_ifs <;> simp [VAcc.addWarning]

set_option maxHeartbeats 1000000 in
theorem validate_structure_eq (m : Model) (acc : VAcc) :
    validate_structure m acc =
      ⟨acc.errors ++ structErrs m, acc.warnings ++ structWarns m⟩ := by
  rcases m with ⟨sv, md, ms, par, an⟩
  cases sv <;> cases md <;> cases ms <;> cases par <;> cases an <;>
    simp only [validate_structure, structErrs, structWarns, VAcc.addError,
      VAcc.addWarning, Option.isNone] <;>
    split_ifs <;>
    simp

/-- The tree-property check only appends to the accumulators. -/
theorem validate_tree_properties_frame (m : Model) (acc : VAcc) :
    validate_tree_properties m acc =
      ⟨acc.errors ++ (validate_tree_properties m ⟨[], []⟩).errors,
       acc.warnings ++ (validate_tree_properties m ⟨[], []⟩).warnings⟩ := by
  rw [validate_tree_properties, validate_tree_properties]
  cases hms : m.model_structure with
  | none => simp
  | some ms =>
    cases ht : truthyStr ms.root_node with
    | none => simp [ht, VAcc.addError]
    | some rootId =>
      cases hl : alookup ms.nodes rootId with
      | none => simp [ht, hl, VAcc.addError]
      | some rootNode =>
        simp only [ht, hl]
        split_ifs <;> simp [VAcc.addError, VAcc.addWarning]

/-- Error-severity diagnostics of the range check for one parameter:
the type-specific if/elif chain (bounds checks contribute none). -/
def paramRangeErrs (pid : String) (param : Param) : List HDiag :=
  match param.base_value with
  | none => []
  | some v =>
    if param.type = some "probability" then
      if ¬(0 ≤ v ∧ v ≤ 1) then [.probOutOfRange pid v] else []
    else if param.type = some "utility" then []
    else if param.type = some "cost" then []
    else if param.type = some "rate" ∨ param.type = some "duration" then
      if v < 0 then [.rateOrDurationNegative pid (pyShowOptStr param.type) v] else []
    else if param.type = some "relative_risk" then
      if v ≤ 0 then [.relativeRiskNonPositive pid v] else []
    else []

/-- Warning-severity diagnostics of the range check for one parameter:
the warning-level type checks followed by the two bounds checks. -/
def paramRangeWarns (pid : String) (param : Param) : List HDiag :=
  match param.base_value with
  | none => []
  | some v =>
    (if param.type = some "probability" then []
     else if param.type = some "utility" then
       if v < -1 ∨ v > 1 then [.utilityOutOfRange pid v] else []
     else if param.type = some "cost" then
       if v < 0 then [.costNegative pid v] else []
     else []) ++
    (match param.bounds with
     | none => []
     | some b =>
       (match b.lower with
        | some lo => if v < lo then [.belowLowerBound pid v lo] else []
        | none => []) ++
       (match b.upper with
        | some hi => if v > hi then [.aboveUpperBound pid v hi] else []
        | none => []))

set_option maxHeartbeats 1000000 in
/-- Full decomposition of the per-parameter range check. -/
theorem checkParamRange_eq (acc : VAcc) (pid : String) (param : Param) :
    checkParamRange acc pid param =
      ⟨acc.errors ++ paramRangeErrs pid param,
       acc.warnings ++ paramRangeWarns pid param⟩ := by
  rw [checkParamRange, paramRangeErrs, paramRangeWarns]
  cases hb : param.base_value with
  | none => simp
  | some v =>
    cases hbd : param.bounds with
    | none =>
      split_ifs <;> simp [VAcc.addError, VAcc.addWarning] <;>
            (try (split_ifs <;> simp))
    | some b =>
      cases hlo : b.lower with
      | none =>
        cases hhi : b.upper with
        | none =>
          split_ifs <;> simp [hlo, hhi, VAcc.addError, VAcc.addWarning] <;>
            (try (split_ifs <;> simp))
        | some hi =>
          split_ifs <;> simp [hlo, hhi, VAcc.addError, VAcc.addWarning] <;>
            (try (split_ifs <;> simp))
      | some lo =>
        cases hhi : b.upper with
        | none =>
          split_ifs <;> simp [hlo, hhi, VAcc.addError, VAcc.addWarning] <;>
            (try (split_ifs <;> simp))
        | some hi =>
          split_ifs <;> simp [hlo, hhi, VAcc.addError, VAcc.addWarning] <;>
            (try (split_ifs <;> simp))

/-- Full decomposition of `_validate_parameter_ranges`. -/
theorem validate_parameter_ranges_eq (m : Model) (acc : VAcc) :
    validate_parameter_ranges m acc =
      match m.parameters with
      | none => acc
      | some parameters =>
        ⟨acc.errors ++ parameters.flatMap (fun p => paramRangeErrs p.1 p.2),
         acc.warnings ++ parameters.flatMap (fun p => paramRangeWarns p.1 p.2)⟩ := by
  rw [validate_parameter_ranges]
  cases hp : m.parameters with
  | none => rfl
  | some parameters =>
    show parameters.foldl (fun acc p => checkParamRange acc p.1 p.2) acc = _
    rw [vaccFoldDiags_eq (fun acc p => checkParamRange acc p.1 p.2)
      (fun p => paramRangeErrs p.1 p.2) (fun p => paramRangeWarns p.1 p.2)
      (fun acc p => checkParamRange_eq acc p.1 p.2) parameters acc]

/-- The value-reference resolver only appends diagnostics. -/
theorem validate_value_reference_frame (params : List (String × Param))
    (vr : Option ValueRef) (loc : String) (errs : List ValidationError) :
    validate_value_reference params vr loc errs =
      errs ++ validate_value_reference params vr loc [] := by
  match vr with
  | none => simp [validate_value_reference]
  | some ⟨some pid, ex⟩ =>
    simp only [validate_value_reference]
    split_ifs <;> simp
  | some ⟨none, some e⟩ =>
    simp only [validate_value_reference]
    rw [validate_expression_eq params e loc errs,
      validate_expression_eq params e loc []]
    split_ifs <;> simp
  | some ⟨none, none⟩ => simp [validate_value_reference]

/-- The enumerated item loop only appends diagnostics. -/
theorem validateItemsAux_frame (params : List (String × Param))
    (nid label : String) :
    ∀ (i : Nat) (items : List CostItem) (errs : List ValidationError),
    validateItemsAux params nid label i items errs =
      errs ++ validateItemsAux params nid label i items [] := by
  intro i items
  induction items generalizing i with
  | nil => intro errs; simp [validateItemsAux]
  | cons item rest ih =>
    intro errs
    cases hd : item.duration_years with
    | none =>
      simp only [validateItemsAux, hd]
      rw [ih (i + 1), validate_value_reference_frame params item.value _ errs,
        ih (i + 1) (validate_value_reference params item.value _ [])]
      simp
    | some d =>
      simp only [validateItemsAux, hd]
      rw [ih (i + 1),
        validate_value_reference_frame params (some d) _
          (validate_value_reference params item.value _ errs),
        validate_value_reference_frame params item.value _ errs,
        ih (i + 1)
          (validate_value_reference params (some d) _
            (validate_value_reference params item.value _ [])),
        validate_value_reference_frame params (some d) _
          (validate_value_reference params item.value _ [])]
      simp

/-- The chance-branch probability fold appends per-branch resolver
diagnostics. -/
theorem chanceFold_eq (params : List (String × Param)) (nid : String)
    (bs : List Branch) (errs : List ValidationError) :
    bs.foldl
      (fun errs b =>
        validate_value_reference params b.probability
          ("node " ++ nid ++ ", branch " ++ pyShowOptStr b.branch_id) errs)
      errs =
      errs ++ bs.flatMap
        (fun b =>
          validate_value_reference params b.probability
            ("node " ++ nid ++ ", branch " ++ pyShowOptStr b.branch_id) []) := by
  refine listFoldDiags_eq _ _ ?_ bs errs
  intro errs b
  exact validate_value_reference_frame params b.probability _ errs

/-- The decision-branch initial-cost fold appends per-branch resolver
diagnostics. -/
theorem decisionFold_eq (params : List (String × Param)) (nid : String)
    (bs : List Branch) (errs : List ValidationError) :
    bs.foldl
      (fun errs b =>
        match b.initial_cost with
        | some ic =>
          validate_value_reference params (some ic)
            ("node " ++ nid ++ ", branch " ++ pyShowOptStr b.branch_id) errs
        | none => errs)
      errs =
      errs ++ bs.flatMap
        (fun b =>
          match b.initial_cost with
          | some ic =>
            validate_value_reference params (some ic)
              ("node " ++ nid ++ ", branch " ++ pyShowOptStr b.branch_id) []
          | none => []) := by
  refine listFoldDiags_eq _ _ ?_ bs errs
  intro errs b
  cases hic : b.initial_cost with
  | none => simp
  | some ic => exact validate_value_reference_frame params (some ic) _ errs

/-- Per-node expression validation only appends diagnostics. -/
theorem validate_node_expressions_one_frame (params : List (String × Param))
    (nid : String) (node : Node) (errs : List ValidationError) :
    validate_node_expressions_one params nid node errs =
      errs ++ validate_node_expressions_one params nid node [] := by
  rw [validate_node_expressions_one]
  conv_rhs => rw [validate_node_expressions_one]
  split_ifs with h1 h2 h3
  · cases hly : (node.outcomes.getD {}).life_years with
    | none =>
      simp only [hly]
      rw [validateItemsAux_frame params nid "utility" 0 _
          (validateItemsAux params nid "cost" 0 _ errs),
        validateItemsAux_frame params nid "cost" 0 _ errs,
        validateItemsAux_frame params nid "utility" 0 _
          (validateItemsAux params nid "cost" 0 _ [])]
      simp
    | some ly =>
      simp only [hly]
      rw [validate_value_reference_frame params (some ly) _
          (validateItemsAux params nid "utility" 0 _
            (validateItemsAux params nid "cost" 0 _ errs)),
        validateItemsAux_frame params nid "utility" 0 _
          (validateItemsAux params nid "cost" 0 _ errs),
        validateItemsAux_frame params nid "cost" 0 _ errs,
        validate_value_reference_frame params (some ly) _
          (validateItemsAux params nid "utility" 0 _
            (validateItemsAux params nid "cost" 0 _ [])),
        validateItemsAux_frame params nid "utility" 0 _
          (validateItemsAux params nid "cost" 0 _ [])]
      simp
  · rw [chanceFold_eq params nid node.branches errs,
      chanceFold_eq params nid node.branches []]
    simp
  · rw [decisionFold_eq params nid node.branches errs,
      decisionFold_eq params nid node.branches []]
    simp
  · simp

/-- Full decomposition of the expression validator's model walk: the
diagnostics are the per-node from-empty diagnostic lists concatenated
in node mapping order. -/
theorem expr_validate_model_eq (params : List (String × Param)) (m : Model) :
    expr_validate_model params m =
      ((m.model_structure.map ModelStructure.nodes).getD []).flatMap
        (fun p => validate_node_expressions_one params p.1 p.2 []) := by
  rw [expr_validate_model]
  have h := listFoldDiags_eq _
    (fun p => validate_node_expressions_one params p.1 p.2 [])
    (fun errs p => validate_node_expressions_one_frame params p.1 p.2 errs)
    ((m.model_structure.map ModelStructure.nodes).getD []) []
  simpa using h

/-- The probability check only appends to the accumulators. -/
theorem validate_probabilities_frame (m : Model) (acc : VAcc) :
    validate_probabilities m acc =
      ⟨acc.errors ++ (validate_probabilities m ⟨[], []⟩).errors,
       acc.warnings ++ (validate_probabilities m ⟨[], []⟩).warnings⟩ := by
  rw [validate_probabilities_eq, validate_probabilities_eq]
  cases m.model_structure <;> simp

/-- The reference-closure check only appends to the accumulators. -/
theorem validate_parameter_references_frame (m : Model) (acc : VAcc) :
    validate_parameter_references m acc =
      ⟨acc.errors ++ (validate_parameter_references m ⟨[], []⟩).errors,
       acc.warnings ++ (validate_parameter_references m ⟨[], []⟩).warnings⟩ := by
  rw [validate_parameter_references_eq, validate_parameter_references_eq]
  cases m.model_structure <;> cases m.parameters <;> simp

/-- The range check only appends to the accumulators. -/
theorem validate_parameter_ranges_frame (m : Model) (acc : VAcc) :
    validate_parameter_ranges m acc =
      ⟨acc.errors ++ (validate_parameter_ranges m ⟨[], []⟩).errors,
       acc.warnings ++ (validate_parameter_ranges m ⟨[], []⟩).warnings⟩ := by
  rw [validate_parameter_ranges_eq, validate_parameter_ranges_eq]
  cases m.parameters <;> simp

/-- C1 amended: the repository has two separate aggregation entry
points rather than one.  `HTASchemaValidator.validate` aggregates
exactly the five structural-pass checks, appending each check's
diagnostics in execution order (structure, tree properties,
probabilities, reference closure, ranges) with validity defined as
error-list emptiness; `validate_model_expressions` separately
aggregates the value-reference/expression diagnostics in node
iteration order with validity defined as the absence of
error-severity entries.  Neither invocation sees the other's
diagnostics (`C1_two_disjoint_validators`). -/
theorem C1_amended_two_ordered_aggregations (m : Model) :
    (validate (some m)).2.errors =
      (validate_structure m ⟨[], []⟩).errors ++
      (validate_tree_properties m ⟨[], []⟩).errors ++
      (validate_probabilities m ⟨[], []⟩).errors ++
      (validate_parameter_references m ⟨[], []⟩).errors ++
      (validate_parameter_ranges m ⟨[], []⟩).errors ∧
    (validate (some m)).2.warnings =
      (validate_structure m ⟨[], []⟩).warnings ++
      (validate_tree_properties m ⟨[], []⟩).warnings ++
      (validate_probabilities m ⟨[], []⟩).warnings ++
      (validate_parameter_references m ⟨[], []⟩).warnings ++
      (validate_parameter_ranges m ⟨[], []⟩).warnings ∧
    (validate (some m)).1 = (validate (some m)).2.errors.isEmpty ∧
    (validate_model_expressions m).2 =
      ((m.model_structure.map ModelStructure.nodes).getD []).flatMap
        (fun p => validate_node_expressions_one (m.parameters.getD []) p.1 p.2 []) ∧
    (validate_model_expressions m).1 =
      !((validate_model_expressions m).2.any (fun e => decide (e.severity = .error))) := by
  have hacc :
      validate_parameter_ranges m
        (validate_parameter_references m
          (validate_probabilities m
            (validate_tree_properties m (validate_structure m ⟨[], []⟩)))) =
      ⟨(validate_structure m ⟨[], []⟩).errors ++
        (validate_tree_properties m ⟨[], []⟩).errors ++
        (validate_probabilities m ⟨[], []⟩).errors ++
        (validate_parameter_references m ⟨[], []⟩).errors ++
        (validate_parameter_ranges m ⟨[], []⟩).errors,
       (validate_structure m ⟨[], []⟩).warnings ++
        (validate_tree_properties m ⟨[], []⟩).warnings ++
        (validate_probabilities m ⟨[], []⟩).warnings ++
        (validate_parameter_references m ⟨[], []⟩).warnings ++
        (validate_parameter_ranges m ⟨[], []⟩).warnings⟩ := by
    rw [validate_parameter_ranges_frame, validate_parameter_references_frame,
      validate_probabilities_frame,
      validate_tree_properties_frame m (validate_structure m ⟨[], []⟩)]
  refine ⟨?_, ?_, ?_, ?_, ?_⟩
  · show (validate_parameter_ranges m
      (validate_parameter_references m
        (validate_probabilities m
          (validate_tree_properties m (validate_structure m ⟨[], []⟩))))).errors = _
    rw [hacc]
  · show (validate_parameter_ranges m
      (validate_parameter_references m
        (validate_probabilities m
          (validate_tree_properties m (validate_structure m ⟨[], []⟩))))).warnings = _
    rw [hacc]
  · rfl
  · show expr_validate_model (m.parameters.getD []) m = _
    exact expr_validate_model_eq (m.parameters.getD []) m
  · rfl

/-- Tree-check errors of a model, from an empty accumulator. -/
def treeErrsOf (m : Model) : List HDiag :=
  (validate_tree_properties m ⟨[], []⟩).errors

/-- Tree-check warnings of a model, from an empty accumulator. -/
def treeWarnsOf (m : Model) : List HDiag :=
  (validate_tree_properties m ⟨[], []⟩).warnings

/-- Probability-check errors of a model, from an empty accumulator. -/
def probErrsAll (m : Model) : List HDiag :=
  (validate_probabilities m ⟨[], []⟩).errors

/-- Reference-closure errors of a model, from an empty accumulator. -/
def refsErrsAll (m : Model) : List HDiag :=
  (validate_parameter_references m ⟨[], []⟩).errors

/-- Reference-closure warnings of a model, from an empty accumulator. -/
def refsWarnsAll (m : Model) : List HDiag :=
  (validate_parameter_references m ⟨[], []⟩).warnings

/-- Range-check errors of a model, from an empty accumulator. -/
def rangeErrsAll (m : Model) : List HDiag :=
  (validate_parameter_ranges m ⟨[], []⟩).errors

/-- Range-check warnings of a model, from an empty accumulator. -/
def rangeWarnsAll (m : Model) : List HDiag :=
  (validate_parameter_ranges m ⟨[], []⟩).warnings

/-- Decomposition of a full run's errors into the five checks. -/
theorem validate_errors_decomp (m : Model) :
    (validate (some m)).2.errors =
      structErrs m ++ treeErrsOf m ++ probErrsAll m ++ refsErrsAll m ++
        rangeErrsAll m := by
  show (validate_parameter_ranges m
    (validate_parameter_references m
      (validate_probabilities m
        (validate_tree_properties m (validate_structure m ⟨[], []⟩))))).errors = _
  rw [validate_parameter_ranges_frame, validate_parameter_references_frame,
    validate_probabilities_frame,
    validate_tree_properties_frame m (validate_structure m ⟨[], []⟩),
    validate_structure_eq]
  simp only [treeErrsOf, probErrsAll, refsErrsAll, rangeErrsAll]
  simp [List.append_assoc]

/-- Decomposition of a full run's warnings into the five checks (the
probability pass never warns). -/
theorem validate_warnings_decomp (m : Model) :
    (validate (some m)).2.warnings =
      structWarns m ++ treeWarnsOf m ++ refsWarnsAll m ++ rangeWarnsAll m := by
  show (validate_parameter_ranges m
    (validate_parameter_references m
      (validate_probabilities m
        (validate_tree_properties m (validate_structure m ⟨[], []⟩))))).warnings = _
  rw [validate_parameter_ranges_frame, validate_parameter_references_frame,
    validate_probabilities_frame,
    validate_tree_properties_frame m (validate_structure m ⟨[], []⟩),
    validate_structure_eq]
  have hp : (validate_probabilities m ⟨[], []⟩).warnings = [] := by
    rw [validate_probabilities_eq]
    cases m.model_structure <;> simp
  simp only [treeWarnsOf, refsWarnsAll, rangeWarnsAll, hp]
  simp [List.append_assoc]

/-- Membership in a conditional singleton forces equality. -/
theorem mem_if_singleton {c : Prop} [Decidable c] {d x : HDiag}
    (h : d ∈ (if c then [x] else [])) : d = x := by
  split_ifs at h
  · simpa using h
  · simp at h

/-- Shapes of structural-check errors. -/
theorem structErrs_shape (m : Model) :
    ∀ d ∈ structErrs m,
      (∃ f, d = .missingField f) ∨ ∃ t, d = .unsupportedModelType t := by
  intro d hd
  rw [structErrs] at hd
  simp only [List.mem_append] at hd
  rcases hd with ((((h | h) | h) | h) | h) | h
  · exact Or.inl ⟨_, mem_if_singleton h⟩
  · exact Or.inl ⟨_, mem_if_singleton h⟩
  · exact Or.inl ⟨_, mem_if_singleton h⟩
  · exact Or.inl ⟨_, mem_if_singleton h⟩
  · exact Or.inl ⟨_, mem_if_singleton h⟩
  · cases hmd : m.model_metadata with
    | none =>
      simp only [hmd] at h
      simp at h
    | some md =>
      simp only [hmd] at h
      exact Or.inr ⟨_, mem_if_singleton h⟩

/-- Shapes of tree-check errors. -/
theorem treeErrs_shape (m : Model) :
    ∀ d ∈ treeErrsOf m,
      d = .noRootNode ∨ (∃ r, d = .rootNotFound r) ∨
      (∃ t, d = .rootNotDecision t) ∨ d = .cycleDetected ∨
      d = .noTerminalNodes := by
  intro d hd
  rw [treeErrsOf, validate_tree_properties] at hd
  cases hms : m.model_structure with
  | none =>
    simp [hms] at hd
  | some ms =>
    simp only [hms] at hd
    cases ht : truthyStr ms.root_node with
    | none =>
      simp only [ht, VAcc.addError] at hd
      simp at hd
      aesop
    | some rootId =>
      simp only [ht] at hd
      cases hl : alookup ms.nodes rootId with
      | none =>
        simp only [hl, VAcc.addError] at hd
        simp at hd
        aesop
      | some rootNode =>
        simp only [hl] at hd
        split_ifs at hd <;>
          simp only [VAcc.addError, VAcc.addWarning] at hd <;>
          simp at hd <;>
          aesop

/-- Shapes of tree-check warnings. -/
theorem treeWarns_shape (m : Model) :
    ∀ d ∈ treeWarnsOf m, ∃ s, d = .unreachableNodes s := by
  intro d hd
  rw [treeWarnsOf, validate_tree_properties] at hd
  cases hms : m.model_structure with
  | none =>
    simp [hms] at hd
  | some ms =>
    simp only [hms] at hd
    cases ht : truthyStr ms.root_node with
    | none =>
      simp only [ht, VAcc.addError] at hd
      simp at hd
    | some rootId =>
      simp only [ht] at hd
      cases hl : alookup ms.nodes rootId with
      | none =>
        simp only [hl, VAcc.addError] at hd
        simp at hd
      | some rootNode =>
        simp only [hl] at hd
        split_ifs at hd <;>
          simp only [VAcc.addError, VAcc.addWarning] at hd <;>
          simp at hd <;>
          aesop

/-- Shapes of probability-check errors. -/
theorem probErrsAll_shape (m : Model) :
    ∀ d ∈ probErrsAll m,
      (∃ p, d = .undefinedParam p) ∨ ∃ n q rs, d = .probSumMismatch n q rs := by
  intro d hd
  rw [probErrsAll, validate_probabilities_eq] at hd
  cases hms : m.model_structure with
  | none =>
    simp [hms] at hd
  | some ms =>
    simp only [hms, List.nil_append] at hd
    obtain ⟨p, hp, hmem⟩ := List.mem_flatMap.mp hd
    rw [probNodeErrs] at hmem
    by_cases h1 : p.2.node_type ≠ some "chance"
    · rw [if_pos h1] at hmem
      simp at hmem
    · rw [if_neg h1] at hmem
      rcases List.mem_append.mp hmem with h | h
      · rw [probErrsOf] at h
        obtain ⟨b, hb, hsome⟩ := List.mem_filterMap.mp h
        left
        cases hbr : branchRefOf b with
        | none =>
          simp [hbr] at hsome
        | some r =>
          simp only [hbr] at hsome
          by_cases hres : (alookup (m.parameters.getD []) r).isSome = true
          · rw [if_pos hres] at hsome
            exact absurd hsome (by simp)
          · rw [if_neg hres] at hsome
            exact ⟨r, by simpa using hsome.symm⟩
      · right
        exact ⟨_, _, _, mem_if_singleton h⟩

/-- Shapes of reference-closure errors. -/
theorem refsErrsAll_shape (m : Model) :
    ∀ d ∈ refsErrsAll m, ∃ p, d = .referencedNotDefined p := by
  intro d hd
  rw [refsErrsAll, validate_parameter_references_eq] at hd
  cases hms : m.model_structure with
  | none =>
    simp [hms] at hd
  | some ms =>
    cases hp : m.parameters with
    | none =>
      simp [hms, hp] at hd
    | some ps =>
      simp only [hms, hp, List.nil_append] at hd
      rw [refsCheckErrs] at hd
      obtain ⟨r, hr, rfl⟩ := List.mem_map.mp hd
      exact ⟨r, rfl⟩

/-- Shapes of reference-closure warnings. -/
theorem refsWarnsAll_shape (m : Model) :
    ∀ d ∈ refsWarnsAll m, ∃ s, d = .unusedParams s := by
  intro d hd
  rw [refsWarnsAll, validate_parameter_references_eq] at hd
  cases hms : m.model_structure with
  | none =>
    simp [hms] at hd
  | some ms =>
    cases hp : m.parameters with
    | none =>
      simp [hms, hp] at hd
    | some ps =>
      simp only [hms, hp, List.nil_append] at hd
      rw [refsCheckWarns] at hd
      split_ifs at hd
      · simp at hd
      · exact ⟨_, List.mem_singleton.mp hd⟩

/-- Shapes of range-check errors. -/
theorem rangeErrsAll_shape (m : Model) :
    ∀ d ∈ rangeErrsAll m,
      (∃ p v, d = .probOutOfRange p v) ∨
      (∃ p t v, d = .rateOrDurationNegative p t v) ∨
      ∃ p v, d = .relativeRiskNonPositive p v := by
  intro d hd
  rw [rangeErrsAll, validate_parameter_ranges_eq] at hd
  cases hp : m.parameters with
  | none =>
    simp [hp] at hd
  | some ps =>
    simp only [hp, List.nil_append] at hd
    obtain ⟨p, hp2, hmem⟩ := List.mem_flatMap.mp hd
    rw [paramRangeErrs] at hmem
    cases hb : p.2.base_value with
    | none =>
      simp [hb] at hmem
    | some v =>
      simp only [hb] at hmem
      split_ifs at hmem <;> simp at hmem <;> aesop

/-- Shapes of range-check warnings. -/
theorem rangeWarnsAll_shape (m : Model) :
    ∀ d ∈ rangeWarnsAll m,
      (∃ p v, d = .utilityOutOfRange p v) ∨
      (∃ p v, d = .costNegative p v) ∨
      (∃ p v lo, d = .belowLowerBound p v lo) ∨
      ∃ p v hi, d = .aboveUpperBound p v hi := by
  intro d hd
  rw [rangeWarnsAll, validate_parameter_ranges_eq] at hd
  cases hp : m.parameters with
  | none =>
    simp [hp] at hd
  | some ps =>
    simp only [hp, List.nil_append] at hd
    obtain ⟨p, hp2, hmem⟩ := List.mem_flatMap.mp hd
    rw [paramRangeWarns] at hmem
    cases hb : p.2.base_value with
    | none =>
      simp [hb] at hmem
    | some v =>
      simp only [hb] at hmem
      rcases List.mem_append.mp hmem with h | h
      · split_ifs at h <;> simp at h <;> aesop
      · cases hbd : p.2.bounds with
        | none =>
          simp [hbd] at h
        | some b =>
          simp only [hbd] at h
          rcases List.mem_append.mp h with h2 | h2
          · cases hlo : b.lower with
            | none =>
              simp [hlo] at h2
            | some lo =>
              simp only [hlo] at h2
              exact Or.inr (Or.inr (Or.inl ⟨_, _, _, mem_if_singleton h2⟩))
          · cases hhi : b.upper with
            | none =>
              simp [hhi] at h2
            | some hi =>
              simp only [hhi] at h2
              exact Or.inr (Or.inr (Or.inr ⟨_, _, _, mem_if_singleton h2⟩))

/-- Every per-branch probability-reference Error is an
undefined-parameter diagnostic. -/
theorem probErrsOf_shape (parameters : List (String × Param)) (bs : List Branch) :
    ∀ d ∈ probErrsOf parameters bs, ∃ r, d = .undefinedParam r := by
  intro d hd
  rw [probErrsOf] at hd
  obtain ⟨b, hb, hsome⟩ := List.mem_filterMap.mp hd
  cases hbr : branchRefOf b with
  | none =>
    simp [hbr] at hsome
  | some r =>
    simp only [hbr] at hsome
    by_cases hres : (alookup parameters r).isSome = true
    · rw [if_pos hres] at hsome
      exact absurd hsome (by simp)
    · rw [if_neg hres] at hsome
      exact ⟨r, by simpa using hsome.symm⟩

/-- A successful association-list lookup witnesses membership. -/
theorem alookup_mem {α : Type} {l : List (String × α)} {k : String} {v : α}
    (h : alookup l k = some v) : (k, v) ∈ l := by
  induction l with
  | nil => simp [alookup] at h
  | cons p rest ih =>
    obtain ⟨k', v'⟩ := p
    rw [alookup] at h
    split_ifs at h with hk
    · simp only [Option.some.injEq] at h
      subst hk
      subst h
      exact List.mem_cons_self _ _
    · exact List.mem_cons_of_mem _ (ih h)

/-- With distinct keys (Python dict semantics), membership determines
the lookup result. -/
theorem mem_alookup_of_nodup {α : Type} {l : List (String × α)} {k : String}
    {v : α} (hnd : (akeys l).Nodup) (hm : (k, v) ∈ l) :
    alookup l k = some v := by
  induction l with
  | nil => simp at hm
  | cons p rest ih =>
    obtain ⟨k', v'⟩ := p
    rw [akeys] at hnd
    simp only [List.map_cons, List.nodup_cons] at hnd
    rcases List.mem_cons.mp hm with h | h
    · simp only [Prod.mk.injEq] at h
      rw [alookup, if_pos h.1.symm, h.2]
    · rw [alookup]
      have hk : k' ≠ k := by
        intro he
        subst he
        exact hnd.1 (List.mem_map.mpr ⟨(k', v), h, rfl⟩)
      rw [if_neg hk]
      exact ih hnd.2 h

/-- The tolerance constant equals `1/10000` as a rational. -/
theorem probTolerance_eq : probTolerance = (1 : Rat) / 10000 := by
  rw [probTolerance, Rat.mkRat_eq_div]
  norm_num

/-- C5: for a chance node of the loaded model (keyed uniquely, as a
Python dict is), the full run's error list contains the
probability-sum Error naming that node, its computed sum and its
contributing parameter references, if and only if the sum of the base
values contributed by the branches deviates from 1 by more than
`1e-4`. -/
theorem C5_prob_sum_error_iff (m : Model) (ms : ModelStructure)
    (nid : String) (node : Node)
    (hms : m.model_structure = some ms)
    (hnd : (akeys ms.nodes).Nodup)
    (hlk : alookup ms.nodes nid = some node)
    (hch : node.node_type = some "chance") :
    HDiag.probSumMismatch nid (probSumOf (m.parameters.getD []) node)
        (probRefsOf node.branches) ∈ (validate (some m)).2.errors ↔
      |probSumOf (m.parameters.getD []) node - 1| > (1 : Rat) / 10000 := by
  have hbridge : ∀ q : Rat,
      (pyAbs (pySub q 1) > probTolerance) ↔ (|q - 1| > (1 : Rat) / 10000) := by
    intro q
    rw [pyAbs_eq, pySub_eq, probTolerance_eq]
  rw [validate_errors_decomp]
  simp only [List.mem_append]
  constructor
  · intro h
    rcases h with (((h | h) | h) | h) | h
    · rcases structErrs_shape m _ h with ⟨f, hf⟩ | ⟨t, hf⟩ <;> simp at hf
    · rcases treeErrs_shape m _ h with hf | ⟨r, hf⟩ | ⟨t, hf⟩ | hf | hf <;>
        simp at hf
    · rw [probErrsAll, validate_probabilities_eq, hms] at h
      replace h : HDiag.probSumMismatch nid
          (probSumOf (m.parameters.getD []) node) (probRefsOf node.branches) ∈
          ms.nodes.flatMap (probNodeErrs (m.parameters.getD [])) := by
        simpa using h
      obtain ⟨p, hp, hmem⟩ := List.mem_flatMap.mp h
      rw [probNodeErrs] at hmem
      by_cases h1 : p.2.node_type ≠ some "chance"
      · rw [if_pos h1] at hmem
        simp at hmem
      · rw [if_neg h1] at hmem
        rcases List.mem_append.mp hmem with h2 | h2
        · obtain ⟨r, hr⟩ := probErrsOf_shape _ _ _ h2
          simp at hr
        · split_ifs at h2 with hc
          · replace h2 := List.mem_singleton.mp h2
            simp only [HDiag.probSumMismatch.injEq] at h2
            obtain ⟨hid, hsum, -⟩ := h2
            have hp2 : p.2 = node := by
              have hm2 : (nid, p.2) ∈ ms.nodes := by
                rw [hid]
                exact (Prod.mk.eta ▸ hp : (p.1, p.2) ∈ ms.nodes)
              have := mem_alookup_of_nodup hnd hm2
              rw [hlk] at this
              exact (Option.some.injEq _ _ ▸ this).symm
            rw [hp2] at hc
            exact (hbridge _).mp hc
          · simp at h2
    · rcases refsErrsAll_shape m _ h with ⟨r, hf⟩
      simp at hf
    · rcases rangeErrsAll_shape m _ h with ⟨a, b, hf⟩ | ⟨a, b, c, hf⟩ | ⟨a, b, hf⟩ <;>
        simp at hf
  · intro h
    refine Or.inl (Or.inl (Or.inr ?_))
    rw [probErrsAll, validate_probabilities_eq, hms]
    show HDiag.probSumMismatch nid (probSumOf (m.parameters.getD []) node)
        (probRefsOf node.branches) ∈
      ms.nodes.flatMap (probNodeErrs (m.parameters.getD []))
    refine List.mem_flatMap.mpr ⟨(nid, node), alookup_mem hlk, ?_⟩
    rw [probNodeErrs, if_neg (by simp [hch])]
    refine List.mem_append_right _ ?_
    rw [if_pos ((hbridge _).mpr h)]
    exact List.mem_singleton.mpr rfl

/-- A chance node whose two referenced probabilities sum to 0.9. -/
def probDemoChance : Node :=
  { node_type := some "chance",
    branches := [{ branch_id := some "b1", target_node := some "t",
                   probability := some { parameter_ref := some "p1" } },
                 { branch_id := some "b2", target_node := some "t",
                   probability := some { parameter_ref := some "p2" } }] }

/-- Structure holding `probDemoChance` under key `c`. -/
def probDemoStruct : ModelStructure :=
  { root_node := some "r",
    nodes := [("r", { node_type := some "decision",
                      branches := [{ branch_id := some "b",
                                     target_node := some "c" }] }),
              ("c", probDemoChance),
              ("t", { node_type := some "terminal" })] }

/-- Model whose chance node `c` sums its probabilities to 0.9. -/
def probDemoModel : Model :=
  { schema_version := some "0.1.0"
    model_metadata := some { model_type := some "decision_tree" }
    model_structure := some probDemoStruct
    parameters := some [("p1", { type := some "probability",
                                 base_value := some (mkRat 6 10) }),
                        ("p2", { type := some "probability",
                                 base_value := some (mkRat 3 10) })]
    analysis_settings := true }

/-- Witness for C5 on `probDemoModel`'s chance node `c`. -/
theorem C5_prob_sum_error_iff_witness :
    probDemoModel.model_structure = some probDemoStruct ∧
    (akeys probDemoStruct.nodes).Nodup ∧
    alookup probDemoStruct.nodes "c" = some probDemoChance ∧
    probDemoChance.node_type = some "chance" ∧
    (HDiag.probSumMismatch "c"
        (probSumOf (probDemoModel.parameters.getD []) probDemoChance)
        (probRefsOf probDemoChance.branches) ∈
          (validate (some probDemoModel)).2.errors ↔
      |probSumOf (probDemoModel.parameters.getD []) probDemoChance - 1| >
        (1 : Rat) / 10000) :=
  ⟨rfl, by decide, by decide, rfl,
   C5_prob_sum_error_iff probDemoModel probDemoStruct "c" probDemoChance rfl
     (by decide) (by decide) rfl⟩

/-- Is a diagnostic one of the two explicit-bounds diagnostics? -/
def isBoundsDiag : HDiag → Bool
  | .belowLowerBound _ _ _ => true
  | .aboveUpperBound _ _ _ => true
  | _ => false

/-- Any range-check warning of a defined parameter reaches the full
run's warning list. -/
theorem mem_warnings_of_paramRangeWarns (m : Model)
    (ps : List (String × Param)) (pid : String) (p : Param)
    (hps : m.parameters = some ps) (hmem : (pid, p) ∈ ps) {d : HDiag}
    (hd : d ∈ paramRangeWarns pid p) :
    d ∈ (validate (some m)).2.warnings := by
  rw [validate_warnings_decomp]
  simp only [List.mem_append]
  refine Or.inr ?_
  rw [rangeWarnsAll, validate_parameter_ranges_eq, hps]
  show d ∈ ps.flatMap fun q => paramRangeWarns q.1 q.2
  exact List.mem_flatMap.mpr ⟨(pid, p), hmem, hd⟩

/-- Any range-check error of a defined parameter reaches the full
run's error list. -/
theorem mem_errors_of_paramRangeErrs (m : Model)
    (ps : List (String × Param)) (pid : String) (p : Param)
    (hps : m.parameters = some ps) (hmem : (pid, p) ∈ ps) {d : HDiag}
    (hd : d ∈ paramRangeErrs pid p) :
    d ∈ (validate (some m)).2.errors := by
  rw [validate_errors_decomp]
  simp only [List.mem_append]
  refine Or.inr ?_
  rw [rangeErrsAll, validate_parameter_ranges_eq, hps]
  show d ∈ ps.flatMap fun q => paramRangeErrs q.1 q.2
  exact List.mem_flatMap.mpr ⟨(pid, p), hmem, hd⟩

/-- C9: for a defined parameter with explicit bounds and a base value,
a base value beyond a declared lower or upper bound yields the
corresponding bounds Warning; no error of the full run is ever a
bounds diagnostic (so bounds violations never escalate to Error, even
for Error-level types); and the Error-level probability type check
still fires independently of the bounds check. -/
theorem C9_bounds_only_warn (m : Model) (ps : List (String × Param))
    (pid : String) (p : Param) (v : Rat) (b : PBounds)
    (hps : m.parameters = some ps)
    (hmem : (pid, p) ∈ ps)
    (hbase : p.base_value = some v)
    (hb : p.bounds = some b) :
    (∀ lo, b.lower = some lo → v < lo →
      HDiag.belowLowerBound pid v lo ∈ (validate (some m)).2.warnings) ∧
    (∀ hi, b.upper = some hi → v > hi →
      HDiag.aboveUpperBound pid v hi ∈ (validate (some m)).2.warnings) ∧
    (∀ d ∈ (validate (some m)).2.errors, isBoundsDiag d = false) ∧
    (p.type = some "probability" → ¬(0 ≤ v ∧ v ≤ 1) →
      HDiag.probOutOfRange pid v ∈ (validate (some m)).2.errors) := by
  refine ⟨?_, ?_, ?_, ?_⟩
  · intro lo hlo hv
    refine mem_warnings_of_paramRangeWarns m ps pid p hps hmem ?_
    rw [paramRangeWarns]
    simp only [hbase]
    refine List.mem_append_right _ ?_
    simp only [hb]
    refine List.mem_append_left _ ?_
    simp only [hlo]
    rw [if_pos hv]
    exact List.mem_singleton.mpr rfl
  · intro hi hhi hv
    refine mem_warnings_of_paramRangeWarns m ps pid p hps hmem ?_
    rw [paramRangeWarns]
    simp only [hbase]
    refine List.mem_append_right _ ?_
    simp only [hb]
    refine List.mem_append_right _ ?_
    simp only [hhi]
    rw [if_pos hv]
    exact List.mem_singleton.mpr rfl
  · intro d hd
    rw [validate_errors_decomp] at hd
    simp only [List.mem_append] at hd
    rcases hd with (((h | h) | h) | h) | h
    · rcases structErrs_shape m _ h with ⟨f, rfl⟩ | ⟨t, rfl⟩ <;> rfl
    · rcases treeErrs_shape m _ h with rfl | ⟨r, rfl⟩ | ⟨t, rfl⟩ | rfl | rfl <;>
        rfl
    · rcases probErrsAll_shape m _ h with ⟨r, rfl⟩ | ⟨n, q, rs, rfl⟩ <;> rfl
    · rcases refsErrsAll_shape m _ h with ⟨r, rfl⟩
      rfl
    · rcases rangeErrsAll_shape m _ h with ⟨a, c, rfl⟩ | ⟨a, c, w, rfl⟩ | ⟨a, c, rfl⟩ <;>
        rfl
  · intro htype hrange
    refine mem_errors_of_paramRangeErrs m ps pid p hps hmem ?_
    rw [paramRangeErrs]
    simp only [hbase]
    rw [if_pos htype, if_pos hrange]
    exact List.mem_singleton.mpr rfl

/-- Explicit bounds `[0, 1]` for the C9 witness parameter. -/
def boundsDemoBounds : PBounds :=
  { lower := some (mkRat 0 1), upper := some (mkRat 1 1) }

/-- A utility-typed parameter with base value 5 and bounds `[0, 1]`. -/
def boundsDemoParam : Param :=
  { type := some "utility", base_value := some (mkRat 5 1),
    bounds := some boundsDemoBounds }

/-- Minimal model defining only `boundsDemoParam`. -/
def boundsDemoModel : Model :=
  { schema_version := some "0.1.0"
    model_metadata := some { model_type := some "decision_tree" }
    model_structure := none
    parameters := some [("u", boundsDemoParam)]
    analysis_settings := true }

/-- Witness for C9 on `boundsDemoModel`'s out-of-bounds parameter. -/
theorem C9_bounds_only_warn_witness :
    boundsDemoModel.parameters = some [("u", boundsDemoParam)] ∧
    ("u", boundsDemoParam) ∈ [("u", boundsDemoParam)] ∧
    boundsDemoParam.base_value = some (mkRat 5 1) ∧
    boundsDemoParam.bounds = some boundsDemoBounds ∧
    ((∀ lo, boundsDemoBounds.lower = some lo → mkRat 5 1 < lo →
        HDiag.belowLowerBound "u" (mkRat 5 1) lo ∈
          (validate (some boundsDemoModel)).2.warnings) ∧
     (∀ hi, boundsDemoBounds.upper = some hi → mkRat 5 1 > hi →
        HDiag.aboveUpperBound "u" (mkRat 5 1) hi ∈
          (validate (some boundsDemoModel)).2.warnings) ∧
     (∀ d ∈ (validate (some boundsDemoModel)).2.errors,
        isBoundsDiag d = false) ∧
     (boundsDemoParam.type = some "probability" →
        ¬(0 ≤ mkRat 5 1 ∧ mkRat 5 1 ≤ 1) →
        HDiag.probOutOfRange "u" (mkRat 5 1) ∈
          (validate (some boundsDemoModel)).2.errors)) :=
  ⟨rfl, by decide, rfl, rfl,
   C9_bounds_only_warn boundsDemoModel [("u", boundsDemoParam)] "u"
     boundsDemoParam (mkRat 5 1) boundsDemoBounds rfl (by decide) rfl rfl⟩

/-- The running probability sum is the start value plus the branches'
contributions. -/
theorem probSumFrom_eq_sum (parameters : List (String × Param))
    (bs : List Branch) (q : Rat) :
    probSumFrom parameters bs q =
      q + (bs.map (branchContribution parameters)).sum := by
  induction bs generalizing q with
  | nil => simp [probSumFrom]
  | cons b bs ih =>
    show probSumFrom parameters bs (pyAdd q (branchContribution parameters b)) = _
    rw [ih, pyAdd_eq]
    simp only [List.map_cons, List.sum_cons]
    ring

/-- C4 (amended): in a chance node of the loaded model, every branch
contributes its resolving reference's base value to the sum; a branch
whose probability slot has no truthy `parameter_ref` contributes 0 and
is silently skipped, while a branch whose reference does not resolve
contributes 0 and is reported with the undefined-parameter Error. -/
theorem C4_amended_unresolved_reported_missing_skipped (m : Model)
    (ms : ModelStructure) (nid : String) (node : Node) (b : Branch)
    (hms : m.model_structure = some ms)
    (hmem : (nid, node) ∈ ms.nodes)
    (hch : node.node_type = some "chance")
    (hb : b ∈ node.branches) :
    (probSumOf (m.parameters.getD []) node =
      (node.branches.map (branchContribution (m.parameters.getD []))).sum) ∧
    (branchRefOf b = none →
      branchContribution (m.parameters.getD []) b = 0) ∧
    (∀ r, branchRefOf b = some r → alookup (m.parameters.getD []) r = none →
      branchContribution (m.parameters.getD []) b = 0 ∧
      HDiag.undefinedParam r ∈ (validate (some m)).2.errors) := by
  refine ⟨?_, ?_, ?_⟩
  · rw [probSumOf, probSumFrom_eq_sum]
    ring
  · intro hr
    exact branchContribution_of_none _ hr
  · intro r hr hlk
    refine ⟨?_, ?_⟩
    · simp [branchContribution, hr, hlk]
    · rw [validate_errors_decomp]
      simp only [List.mem_append]
      refine Or.inl (Or.inl (Or.inr ?_))
      rw [probErrsAll, validate_probabilities_eq, hms]
      show HDiag.undefinedParam r ∈
        ms.nodes.flatMap (probNodeErrs (m.parameters.getD []))
      refine List.mem_flatMap.mpr ⟨(nid, node), hmem, ?_⟩
      rw [probNodeErrs, if_neg (by simp [hch])]
      refine List.mem_append_left _ ?_
      rw [probErrsOf]
      refine List.mem_filterMap.mpr ⟨b, hb, ?_⟩
      simp [hr, hlk]

/-- Witness for the amended C4 on `noRefBranchModel`'s reference-free
chance branch. -/
theorem C4_amended_witness :
    noRefBranchModel.model_structure =
      some { root_node := some "r", nodes := noRefBranchNodes } ∧
    ("c", noRefChanceNode) ∈ noRefBranchNodes ∧
    noRefChanceNode.node_type = some "chance" ∧
    noRefBranch ∈ noRefChanceNode.branches ∧
    ((probSumOf (noRefBranchModel.parameters.getD []) noRefChanceNode =
        (noRefChanceNode.branches.map
          (branchContribution (noRefBranchModel.parameters.getD []))).sum) ∧
     (branchRefOf noRefBranch = none →
       branchContribution (noRefBranchModel.parameters.getD []) noRefBranch = 0) ∧
     (∀ r, branchRefOf noRefBranch = some r →
       alookup (noRefBranchModel.parameters.getD []) r = none →
       branchContribution (noRefBranchModel.parameters.getD []) noRefBranch = 0 ∧
       HDiag.undefinedParam r ∈ (validate (some noRefBranchModel)).2.errors)) :=
  ⟨rfl, by decide, rfl, by decide,
   C4_amended_unresolved_reported_missing_skipped noRefBranchModel
     { root_node := some "r", nodes := noRefBranchNodes } "c" noRefChanceNode
     noRefBranch rfl (by decide) rfl (by decide)⟩

/-- Shapes of structural-check warnings. -/
theorem structWarns_shape (m : Model) :
    ∀ d ∈ structWarns m, ∃ ver, d = .versionMismatch ver := by
  intro d hd
  rw [structWarns] at hd
  cases hv : m.schema_version with
  | none => simp [hv] at hd
  | some v =>
    simp only [hv] at hd
    exact ⟨_, mem_if_singleton hd⟩

/-- Occurrence of a `parameter_ref`-form reference to `r` in one node's
collected slots: branch probabilities and initial costs, terminal
cost/utility values with durations, and life-years. -/
def nodeRefOccurs (node : Node) (r : String) : Prop :=
  (∃ b ∈ node.branches,
     truthyRefOf b.probability = some r ∨
     truthyRefOf b.initial_cost = some r) ∨
  ∃ outc, node.outcomes = some outc ∧
    ((∃ item ∈ outc.costs,
        truthyRefOf item.value = some r ∨
        truthyRefOf item.duration_years = some r) ∨
     (∃ item ∈ outc.utilities,
        truthyRefOf item.value = some r ∨
        truthyRefOf item.duration_years = some r) ∨
     truthyRefOf outc.life_years = some r)

/-- Membership after inserting into the reference "set". -/
theorem mem_addRef {l : List String} {r a : String} :
    a ∈ addRef l r ↔ a ∈ l ∨ a = r := by
  rw [addRef]
  split_ifs with h
  · constructor
    · exact Or.inl
    · rintro (h2 | rfl)
      · exact h2
      · simpa using h
  · simp

/-- Membership after optionally inserting a slot's truthy reference. -/
theorem mem_addRefOf {l : List String} {vr : Option ValueRef} {a : String} :
    a ∈ addRefOf l vr ↔ a ∈ l ∨ truthyRefOf vr = some a := by
  rw [addRefOf]
  cases h : truthyRefOf vr with
  | none => simp
  | some r =>
    rw [mem_addRef]
    simp [eq_comm]

/-- Membership through a two-slot reference-collection fold. -/
theorem mem_refPairFold {α : Type} (f g : α → Option ValueRef) (xs : List α)
    (acc : List String) (a : String) :
    a ∈ xs.foldl (fun acc x => addRefOf (addRefOf acc (f x)) (g x)) acc ↔
      a ∈ acc ∨
        ∃ x ∈ xs, truthyRefOf (f x) = some a ∨ truthyRefOf (g x) = some a := by
  induction xs generalizing acc with
  | nil => simp
  | cons x xs ih =>
    rw [List.foldl_cons, ih, mem_addRefOf, mem_addRefOf]
    simp only [List.exists_mem_cons_iff]
    constructor
    · rintro (((h | h) | h) | ⟨w, hw, h⟩)
      · exact Or.inl h
      · exact Or.inr (Or.inl (Or.inl h))
      · exact Or.inr (Or.inl (Or.inr h))
      · exact Or.inr (Or.inr ⟨w, hw, h⟩)
    · rintro (h | ((h | h) | ⟨w, hw, h⟩))
      · exact Or.inl (Or.inl (Or.inl h))
      · exact Or.inl (Or.inl (Or.inr h))
      · exact Or.inl (Or.inr h)
      · exact Or.inr ⟨w, hw, h⟩

/-- Membership through one node's reference collection. -/
theorem mem_collectNodeRefs (node : Node) (acc : List String) (a : String) :
    a ∈ collectNodeRefs acc node ↔ a ∈ acc ∨ nodeRefOccurs node a := by
  rw [collectNodeRefs]
  cases ho : node.outcomes with
  | none =>
    simp only [ho]
    rw [mem_refPairFold Branch.probability Branch.initial_cost]
    simp [nodeRefOccurs, ho]
  | some outc =>
    simp only [ho]
    rw [mem_addRefOf,
      mem_refPairFold CostItem.value CostItem.duration_years,
      mem_refPairFold CostItem.value CostItem.duration_years,
      mem_refPairFold Branch.probability Branch.initial_cost]
    simp only [nodeRefOccurs, ho, Option.some.injEq]
    constructor
    · rintro ((((h | h) | h) | h) | h)
      · exact Or.inl h
      · exact Or.inr (Or.inl h)
      · exact Or.inr (Or.inr ⟨outc, rfl, Or.inl h⟩)
      · exact Or.inr (Or.inr ⟨outc, rfl, Or.inr (Or.inl h)⟩)
      · exact Or.inr (Or.inr ⟨outc, rfl, Or.inr (Or.inr h)⟩)
    · rintro (h | h | ⟨outc2, hh, h⟩)
      · exact Or.inl (Or.inl (Or.inl (Or.inl h)))
      · exact Or.inl (Or.inl (Or.inl (Or.inr h)))
      · subst hh
        rcases h with h | h | h
        · exact Or.inl (Or.inl (Or.inr h))
        · exact Or.inl (Or.inr h)
        · exact Or.inr h

/-- Membership in the full referenced-identifier collection. -/
theorem mem_collectReferenced (nodes : List (String × Node)) (a : String) :
    a ∈ collectReferenced nodes ↔ ∃ p ∈ nodes, nodeRefOccurs p.2 a := by
  have haux : ∀ acc, a ∈ nodes.foldl (fun acc p => collectNodeRefs acc p.2) acc ↔
      a ∈ acc ∨ ∃ p ∈ nodes, nodeRefOccurs p.2 a := by
    induction nodes with
    | nil =>
      intro acc
      simp
    | cons p ps ih =>
      intro acc
      rw [List.foldl_cons, ih, mem_collectNodeRefs]
      simp only [List.exists_mem_cons_iff]
      tauto
  rw [collectReferenced]
  simpa using haux []

/-- C7 (amended): with structure and parameter mapping present, the
collected "referenced" identifiers are exactly the `parameter_ref`-form
occupants of the collected slots (expression-form occupants are never
collected); every collected identifier missing from the parameter
mapping is an Error of the full run; and a defined parameter appears in
an unused-parameter Warning set of the full run exactly when it is not
collected. -/
theorem C7_amended_parameter_ref_closure (m : Model) (ms : ModelStructure)
    (ps : List (String × Param))
    (hms : m.model_structure = some ms)
    (hps : m.parameters = some ps) :
    (∀ r, r ∈ collectReferenced ms.nodes ↔
      ∃ p ∈ ms.nodes, nodeRefOccurs p.2 r) ∧
    (∀ r, r ∈ collectReferenced ms.nodes → containsParam ps r = false →
      HDiag.referencedNotDefined r ∈ (validate (some m)).2.errors) ∧
    (∀ pid, pid ∈ akeys ps →
      ((∃ s, HDiag.unusedParams s ∈ (validate (some m)).2.warnings ∧ pid ∈ s) ↔
        pid ∉ collectReferenced ms.nodes)) := by
  refine ⟨fun r => mem_collectReferenced ms.nodes r, ?_, ?_⟩
  · intro r hr hcont
    rw [validate_errors_decomp]
    simp only [List.mem_append]
    refine Or.inl (Or.inr ?_)
    rw [refsErrsAll, validate_parameter_references_eq, hms, hps]
    show HDiag.referencedNotDefined r ∈ refsCheckErrs ms ps
    rw [refsCheckErrs]
    exact List.mem_map.mpr
      ⟨r, List.mem_filter.mpr ⟨hr, by simp [hcont]⟩, rfl⟩
  · intro pid hpid
    constructor
    · rintro ⟨s, hw, hin⟩
      rw [validate_warnings_decomp] at hw
      simp only [List.mem_append] at hw
      rcases hw with ((h | h) | h) | h
      · obtain ⟨ver, hf⟩ := structWarns_shape m _ h
        simp at hf
      · obtain ⟨t, hf⟩ := treeWarns_shape m _ h
        simp at hf
      · rw [refsWarnsAll, validate_parameter_references_eq, hms, hps] at h
        replace h : HDiag.unusedParams s ∈ refsCheckWarns ms ps := by
          simpa using h
        rw [refsCheckWarns] at h
        split_ifs at h with hemp
        · simp at h
        · replace h := List.mem_singleton.mp h
          simp only [HDiag.unusedParams.injEq] at h
          rw [h] at hin
          rw [unusedSetOf, Finset.mem_sdiff, List.mem_toFinset] at hin
          exact fun hc => hin.2 (List.mem_toFinset.mpr hc)
      · rcases rangeWarnsAll_shape m _ h with
          ⟨a, b, hf⟩ | ⟨a, b, hf⟩ | ⟨a, b, c, hf⟩ | ⟨a, b, c, hf⟩ <;> simp at hf
    · intro hnotref
      have hin : pid ∈ unusedSetOf ms ps := by
        rw [unusedSetOf, Finset.mem_sdiff, List.mem_toFinset]
        exact ⟨hpid, fun hc => hnotref (List.mem_toFinset.mp hc)⟩
      have hne : unusedSetOf ms ps ≠ ∅ := by
        intro he
        rw [he] at hin
        exact absurd hin (Finset.not_mem_empty pid)
      refine ⟨unusedSetOf ms ps, ?_, hin⟩
      rw [validate_warnings_decomp]
      simp only [List.mem_append]
      refine Or.inl (Or.inr ?_)
      rw [refsWarnsAll, validate_parameter_references_eq, hms, hps]
      show HDiag.unusedParams (unusedSetOf ms ps) ∈ refsCheckWarns ms ps
      rw [refsCheckWarns, if_neg hne]
      exact List.mem_singleton.mpr rfl

/-- Witness for the amended C7 on `exprRefOnlyModel`. -/
theorem C7_amended_witness :
    exprRefOnlyModel.model_structure =
      some { root_node := some "r", nodes := exprRefOnlyNodes } ∧
    exprRefOnlyModel.parameters =
      some [("p", { base_value := some (mkRat 100 1) })] ∧
    ((∀ r, r ∈ collectReferenced exprRefOnlyNodes ↔
       ∃ p ∈ exprRefOnlyNodes, nodeRefOccurs p.2 r) ∧
     (∀ r, r ∈ collectReferenced exprRefOnlyNodes →
       containsParam [("p", { base_value := some (mkRat 100 1) })] r = false →
       HDiag.referencedNotDefined r ∈ (validate (some exprRefOnlyModel)).2.errors) ∧
     (∀ pid, pid ∈ akeys [("p", ({ base_value := some (mkRat 100 1) } : Param))] →
       ((∃ s, HDiag.unusedParams s ∈ (validate (some exprRefOnlyModel)).2.warnings ∧
           pid ∈ s) ↔
         pid ∉ collectReferenced exprRefOnlyNodes))) :=
  ⟨rfl, rfl,
   C7_amended_parameter_ref_closure exprRefOnlyModel
     { root_node := some "r", nodes := exprRefOnlyNodes }
     [("p", { base_value := some (mkRat 100 1) })] rfl rfl⟩

/-- `eraseDups.loop` accumulates exactly the seen and remaining
elements. -/
theorem mem_eraseDups_loop (a : String) (l : List String) :
    ∀ acc, a ∈ List.eraseDups.loop l acc ↔ a ∈ acc ∨ a ∈ l := by
  induction l with
  | nil =>
    intro acc
    rw [List.eraseDups.loop]
    simp
  | cons b bs ih =>
    intro acc
    rw [List.eraseDups.loop]
    cases h : List.elem b acc with
    | true =>
      simp only [h]
      rw [ih]
      have hb : b ∈ acc := by simpa using h
      simp only [List.mem_cons]
      constructor
      · rintro (h2 | h2)
        · exact Or.inl h2
        · exact Or.inr (Or.inr h2)
      · rintro (h2 | h2 | h2)
        · exact Or.inl h2
        · exact Or.inl (h2 ▸ hb)
        · exact Or.inr h2
    | false =>
      simp only [h]
      rw [ih]
      simp only [List.mem_cons]
      tauto

/-- Deduplication preserves membership. -/
theorem mem_eraseDups (a : String) (l : List String) :
    a ∈ l.eraseDups ↔ a ∈ l := by
  rw [List.eraseDups, mem_eraseDups_loop]
  simp

/-- The call-site substitution never changes a parenthesis-free
string: the pattern requires an opening parenthesis after the name. -/
theorem subFuncAux_no_paren (name : List Char) (fuel : Nat) :
    ∀ (prev : Option Char) (s : List Char), '(' ∉ s →
      subFuncAux name fuel prev s = s := by
  induction fuel with
  | zero =>
    intro prev s h
    rfl
  | succ fuel ih =>
    intro prev s h
    cases s with
    | nil => rfl
    | cons c rest =>
      have hrest : '(' ∉ rest := fun hm => h (List.mem_cons_of_mem _ hm)
      simp only [subFuncAux]
      split_ifs with hb
      · split
        case _ tl heq =>
          exfalso
          have hsub : List.Sublist
              (((c :: rest).drop name.length).dropWhile pyIsSpace)
              (c :: rest) :=
            (List.dropWhile_sublist _).trans (List.drop_sublist _ _)
          exact h (hsub.mem (heq ▸ List.mem_cons_self '(' tl))
        case _ =>
          rw [ih _ _ hrest]
      · rw [ih _ _ hrest]

/-- One function name's substitution on a parenthesis-free string. -/
theorem subFunc_no_paren (name : String) (s : List Char) (h : '(' ∉ s) :
    subFunc name s = s :=
  subFuncAux_no_paren name.toList s.length none s h

/-- Stripping all call sites is the identity on parenthesis-free
strings. -/
theorem removeFuncCalls_no_paren (s : List Char) (h : '(' ∉ s) :
    removeFuncCalls s = s := by
  rw [removeFuncCalls]
  have haux : ∀ fs : List String, fs.foldl (fun acc f => subFunc f acc) s = s := by
    intro fs
    induction fs with
    | nil => rfl
    | cons f fs ih =>
      rw [List.foldl_cons, subFunc_no_paren f s h]
      exact ih
  exact haux FUNCTION_NAMES

/-- `takeWhile` over an append that satisfies the predicate exactly on
the left part. -/
theorem takeWhile_append_all (p : Char → Bool) (a b : List Char)
    (ha : ∀ c ∈ a, p c = true) (hb : ∀ c, b.head? = some c → p c = false) :
    (a ++ b).takeWhile p = a := by
  induction a with
  | nil =>
    cases b with
    | nil => rfl
    | cons c bs =>
      simp [List.takeWhile_cons, hb c rfl]
  | cons c as ih =>
    rw [List.cons_append, List.takeWhile_cons, ha c (List.mem_cons_self c as)]
    rw [ih (fun d hd => ha d (List.mem_cons_of_mem c hd))]
    simp

/-- A list whose last element fails the predicate does not vanish
under `dropWhile`. -/
theorem dropWhile_ne_nil_of_getLast (p : Char → Bool) (l : List Char)
    (c : Char) (hl : l.getLast? = some c) (hc : p c = false) :
    l.dropWhile p ≠ [] := by
  intro he
  have hmem : c ∈ l := List.mem_of_mem_getLast? hl
  have := List.dropWhile_eq_nil_iff.mp he c hmem
  rw [hc] at this
  exact Bool.noConfusion this

/-- `dropWhile` over an append stops inside a left part it cannot
erase. -/
theorem dropWhile_append_of_ne_nil (p : Char → Bool) (a b : List Char)
    (ha : a.dropWhile p ≠ []) : (a ++ b).dropWhile p = a.dropWhile p ++ b := by
  induction a with
  | nil => exact absurd rfl ha
  | cons c as ih =>
    rw [List.cons_append, List.dropWhile_cons, List.dropWhile_cons]
    cases hp : p c with
    | true =>
      simp only [if_pos rfl]
      rw [List.dropWhile_cons, hp] at ha
      simp only [if_pos rfl] at ha
      exact ih ha
    | false => simp

/-- `dropWhile` keeps the last element when it keeps anything. -/
theorem dropWhile_getLast_eq (p : Char → Bool) (l : List Char)
    (h : l.dropWhile p ≠ []) : (l.dropWhile p).getLast? = l.getLast? := by
  induction l with
  | nil => exact absurd rfl h
  | cons c as ih =>
    rw [List.dropWhile_cons] at h ⊢
    by_cases hp : p c = true
    · rw [if_pos hp] at h ⊢
      have has : as ≠ [] := by
        intro he
        rw [he] at h
        exact h rfl
      rw [ih h]
      cases as with
      | nil => exact absurd rfl has
      | cons d ds => exact List.getLast?_cons_cons.symm
    · rw [if_neg hp] at h ⊢

/-- Word characters are token characters. -/
theorem isTokenChar_of_isWordChar {c : Char} (h : isWordChar c = true) :
    isTokenChar c = true := by
  rw [isTokenChar, h]
  rfl

/-- Non-token characters are non-word characters. -/
theorem not_isWordChar_of_not_isTokenChar {c : Char}
    (h : isTokenChar c = false) : isWordChar c = false := by
  rw [isTokenChar] at h
  exact (Bool.or_eq_false_iff.mp h).1

/-- Hyphen-stripping is the identity when the last character is not a
hyphen. -/
theorem rstripHyphen_eq_self {t : List Char} (h : t.getLast? ≠ some '-') :
    rstripHyphen t = t := by
  rw [rstripHyphen]
  have hdw : t.reverse.dropWhile (fun c => c = '-') = t.reverse := by
    cases hr : t.reverse with
    | nil => rfl
    | cons c cs =>
      rw [List.dropWhile_cons]
      have hc : ¬(c = '-') := by
        intro he
        apply h
        rw [← List.head?_reverse, hr, he]
        rfl
      rw [if_neg (by simpa using hc)]
  rw [hdw, List.reverse_reverse]

/-- Completeness of the identifier scanner: a maximal token-character
run that starts with a letter is reported (with trailing hyphens
stripped), whatever maximal runs precede it. -/
theorem scanIdentsAux_complete :
    ∀ (fuel : Nat) (pre t post : List Char) (prevW : Bool),
      (pre ++ t ++ post).length ≤ fuel →
      (∀ c ∈ t, isTokenChar c = true) →
      (∀ c, t.head? = some c → c.isAlpha = true) →
      t ≠ [] →
      (pre = [] → prevW = false) →
      (∀ c, pre.getLast? = some c → isTokenChar c = false) →
      (∀ c, post.head? = some c → isTokenChar c = false) →
      rstripHyphen t ∈ scanIdentsAux fuel prevW (pre ++ t ++ post) := by
  intro fuel
  induction fuel with
  | zero =>
    intro pre t post prevW hlen htok hhead hne hpre hpre2 hpost
    exfalso
    cases t with
    | nil => exact hne rfl
    | cons c tl => simp at hlen
  | succ fuel ih =>
    intro pre t post prevW hlen htok hhead hne hpre hpre2 hpost
    cases pre with
    | nil =>
      have hw : prevW = false := hpre rfl
      subst hw
      cases t with
      | nil => exact absurd rfl hne
      | cons c tl =>
        have hc : c.isAlpha = true := hhead c rfl
        have htl : (tl ++ post).takeWhile isTokenChar = tl :=
          takeWhile_append_all _ tl post
            (fun d hd => htok d (List.mem_cons_of_mem c hd)) hpost
        simp only [List.nil_append, List.cons_append]
        simp only [scanIdentsAux, hc, Bool.not_false, Bool.true_and, if_true,
          htl]
        exact List.mem_cons_self _ _
    | cons c pre' =>
      have hrest : ((c :: pre') ++ t ++ post) = c :: (pre' ++ t ++ post) := by
        simp
      rw [hrest]
      by_cases hfire : (!prevW && c.isAlpha) = true
      · have hpre'ne : pre' ≠ [] := by
          intro he
          subst he
          have hlast : isTokenChar c = false := hpre2 c rfl
          have hca : c.isAlpha = true := by
            have h3 := hfire
            simp only [Bool.and_eq_true] at h3
            exact h3.2
          have : isTokenChar c = true :=
            isTokenChar_of_isWordChar (by rw [isWordChar, hca]; rfl)
          rw [hlast] at this
          exact Bool.noConfusion this
        obtain ⟨cl, hcl⟩ : ∃ cl, pre'.getLast? = some cl := by
          cases hg : pre'.getLast? with
          | none => exact absurd (List.getLast?_eq_none_iff.mp hg) hpre'ne
          | some cl => exact ⟨cl, rfl⟩
        have hcl2 : isTokenChar cl = false := by
          apply hpre2
          rw [← hcl]
          cases pre' with
          | nil => exact absurd rfl hpre'ne
          | cons d ds => exact (List.getLast?_cons_cons).symm ▸ rfl
        have hdne : pre'.dropWhile isTokenChar ≠ [] :=
          dropWhile_ne_nil_of_getLast _ _ cl hcl hcl2
        have hdrop : (pre' ++ t ++ post).dropWhile isTokenChar =
            (pre'.dropWhile isTokenChar ++ t) ++ post := by
          rw [List.append_assoc, dropWhile_append_of_ne_nil _ _ _ hdne,
            List.append_assoc]
        simp only [scanIdentsAux, if_pos hfire]
        apply List.mem_cons_of_mem
        rw [hdrop]
        apply ih (pre'.dropWhile isTokenChar) t post _ ?_ htok hhead hne
          (fun he => absurd he hdne) ?_ hpost
        · have h1 : (pre'.dropWhile isTokenChar).length ≤ pre'.length :=
            dropWhile_length_le _ _
          have h2 : (pre' ++ t ++ post).length ≤ fuel := by
            rw [hrest] at hlen
            simpa using Nat.le_of_succ_le_succ (by simpa using hlen)
          simp only [List.length_append] at h2 ⊢
          omega
        · intro c' hc'
          apply hpre2
          rw [dropWhile_getLast_eq _ _ hdne] at hc'
          rw [← hc']
          cases pre' with
          | nil => exact absurd rfl hpre'ne
          | cons d ds => exact (List.getLast?_cons_cons).symm ▸ rfl
      · simp only [scanIdentsAux, if_neg hfire]
        apply ih pre' t post (isWordChar c) ?_ htok hhead hne ?_ ?_ hpost
        · rw [hrest] at hlen
          simpa using Nat.le_of_succ_le_succ (by simpa using hlen)
        · intro he
          subst he
          exact not_isWordChar_of_not_isTokenChar (hpre2 c rfl)
        · intro c' hc'
          apply hpre2
          rw [← hc']
          cases pre' with
          | nil => simp at hc'
          | cons d ds => exact (List.getLast?_cons_cons).symm ▸ rfl

/-- A maximal letter-headed token of a parenthesis-free expression,
not ending in a hyphen and not a keyword, is among the extracted
parameter identifiers. -/
theorem extractParams_mem_of_maxToken (e : String) (t : List Char)
    (hnp : '(' ∉ e.toList)
    (hmt : IsMaxToken e.toList t)
    (hhead : ∃ c tl, t = c :: tl ∧ c.isAlpha = true)
    (hlast : t.getLast? ≠ some '-')
    (hkw : KEYWORDS.contains (String.mk t) = false) :
    String.mk t ∈ extractParams e := by
  obtain ⟨hne, htok, pre, post, hs, hpre, hpost⟩ := hmt
  rw [extractParams, mem_eraseDups, List.mem_filter]
  refine ⟨?_, by simpa using hkw⟩
  rw [removeFuncCalls_no_paren _ hnp, extractIdentifiers]
  refine List.mem_map.mpr ⟨t, ?_, rfl⟩
  have hhead2 : ∀ c, t.head? = some c → c.isAlpha = true := by
    intro c hc
    obtain ⟨c0, tl, rfl, ha⟩ := hhead
    simp only [List.head?_cons, Option.some.injEq] at hc
    rw [← hc]
    exact ha
  have hpre2 : ∀ c, pre.getLast? = some c → isTokenChar c = false := by
    intro c hc
    rcases hpre with rfl | ⟨p, c0, rfl, hc0⟩
    · simp at hc
    · rw [List.getLast?_concat] at hc
      simp only [Option.some.injEq] at hc
      rw [← hc]
      exact hc0
  have hpost2 : ∀ c, post.head? = some c → isTokenChar c = false := by
    intro c hc
    rcases hpost with rfl | ⟨c0, p', rfl, hc0⟩
    · simp at hc
    · simp only [List.head?_cons, Option.some.injEq] at hc
      rw [← hc]
      exact hc0
  have hres := scanIdentsAux_complete (pre ++ t ++ post).length pre t post
    false (Nat.le_refl _) htok hhead2 hne (fun _ => rfl) hpre2 hpost2
  rw [rstripHyphen_eq_self hlast] at hres
  rw [hs]
  exact hres

/-- C6 (amended): over a parenthesis-free expression, for every
maximal token-character run that starts with a letter, does not end in
a hyphen and is not a keyword, pass 3 (which appends its verdict and
diagnostics as stated in the first conjunct) emits no
unresolved-identifier Error naming that token if and only if the token
is a key of the parameter registry.  Tokens starting with a digit,
underscore or hyphen, or ending in a hyphen, escape the extraction
regex and are outside this guarantee (counterexample). -/
theorem C6_amended_registry_iff_no_error (params : List (String × Param))
    (e : String) (t : List Char)
    (hnp : '(' ∉ e.toList)
    (hmt : IsMaxToken e.toList t)
    (hhead : ∃ c tl, t = c :: tl ∧ c.isAlpha = true)
    (hlast : t.getLast? ≠ some '-')
    (hkw : KEYWORDS.contains (String.mk t) = false) :
    (∀ l errs, validateParamRefsPass params e l errs =
      (refsOk params e, errs ++ refsDiags params e l)) ∧
    (∀ l, (⟨.unresolvedParam (String.mk t), l, some e, .error⟩ ∉
        refsDiags params e l) ↔
      containsParam params (String.mk t) = true) := by
  refine ⟨fun l errs => validateParamRefsPass_eq params e l errs, ?_⟩
  intro l
  constructor
  · intro hnotin
    by_contra hc
    apply hnotin
    rw [refsDiags]
    refine List.mem_map.mpr ⟨String.mk t, ?_, rfl⟩
    rw [List.mem_filter]
    refine ⟨extractParams_mem_of_maxToken e t hnp hmt hhead hlast hkw, ?_⟩
    simp only [Bool.not_eq_true] at hc
    simp [hc]
  · intro hcont hmem
    rw [refsDiags] at hmem
    obtain ⟨p, hp, heq⟩ := List.mem_map.mp hmem
    have hpt : p = String.mk t := by
      have h2 := congrArg ValidationError.message heq
      simpa using h2
    subst hpt
    have h3 := (List.mem_filter.mp hp).2
    rw [hcont] at h3
    exact Bool.noConfusion h3

/-- Witness for the amended C6: token `y` in `"x + y"` against the
registry defining only `x`. -/
theorem C6_amended_witness :
    ('(' ∉ "x + y".toList) ∧
    IsMaxToken "x + y".toList ['y'] ∧
    (∃ c tl, ['y'] = c :: tl ∧ c.isAlpha = true) ∧
    (['y'].getLast? ≠ some '-') ∧
    KEYWORDS.contains (String.mk ['y']) = false ∧
    ((∀ l errs, validateParamRefsPass [("x", { base_value := some (mkRat 1 2) })]
        "x + y" l errs =
      (refsOk [("x", { base_value := some (mkRat 1 2) })] "x + y",
       errs ++ refsDiags [("x", { base_value := some (mkRat 1 2) })] "x + y" l)) ∧
     (∀ l, (⟨.unresolvedParam (String.mk ['y']), l, some "x + y", .error⟩ ∉
         refsDiags [("x", { base_value := some (mkRat 1 2) })] "x + y" l) ↔
       containsParam [("x", { base_value := some (mkRat 1 2) })]
         (String.mk ['y']) = true)) :=
  ⟨by decide,
   ⟨by decide, by decide,
    ⟨['x', ' ', '+', ' '], [], by decide,
     Or.inr ⟨['x', ' ', '+'], ' ', by decide, by decide⟩, Or.inl rfl⟩⟩,
   ⟨'y', [], rfl, by decide⟩, by decide, by decide,
   C6_amended_registry_iff_no_error [("x", { base_value := some (mkRat 1 2) })]
     "x + y" ['y'] (by decide)
     ⟨by decide, by decide,
      ⟨['x', ' ', '+', ' '], [], by decide,
       Or.inr ⟨['x', ' ', '+'], ' ', by decide, by decide⟩, Or.inl rfl⟩⟩
     ⟨'y', [], rfl, by decide⟩ (by decide) (by decide)⟩

/-- A parsed JSON value as the Python validator receives it: the typed
`Model` embedding assumes well-shaped input, while this dynamic value
domain can represent arbitrarily-shaped parsed models. -/
inductive PyVal where
  | none : PyVal
  | bool : Bool → PyVal
  | num : Rat → PyVal
  | str : String → PyVal
  | list : List PyVal → PyVal
  | dict : List (String × PyVal) → PyVal

/-- The only exception class relevant here: attribute access on a
value that lacks the attribute (`version.startswith`, `d.get`). -/
inductive PyExn where
  | attributeError : PyExn
deriving DecidableEq, Repr

/-- A structural-check diagnostic over dynamic input, carrying the
offending value where the Python f-string would interpolate it. -/
inductive SDiag where
  | missingField (f : String) : SDiag
  | versionMismatch (v : String) : SDiag
  | unsupportedModelType (v : Option PyVal) : SDiag

/-- The required top-level fields of `_validate_structure`. -/
def requiredFields : List String :=
  ["schema_version", "model_metadata", "model_structure", "parameters",
   "analysis_settings"]

/-- Python `model_type != 'decision_tree'`, negated: a dynamic value
equals the string `decision_tree` only when it is that string. -/
def isDecisionTree : Option PyVal → Bool
  | some (.str s) => s = "decision_tree"
  | _ => false

/-- The model-type half of the dynamic structural check: `.get` on a
present non-dict `model_metadata` raises `AttributeError`. -/
def structureDynMeta (model : List (String × PyVal)) (errs warns : List SDiag) :
    Except PyExn (List SDiag × List SDiag) :=
  match alookup model "model_metadata" with
  | Option.none => .ok (errs, warns)
  | some (.dict md) =>
    let mt := alookup md "model_type"
    if !isDecisionTree mt then
      .ok (errs ++ [SDiag.unsupportedModelType mt], warns)
    else .ok (errs, warns)
  | some _ => .error .attributeError

/-- Dynamic mirror of `HTASchemaValidator._validate_structure` (lines
59-78): the missing-field loop, then the version check — whose
`version.startswith('0.1.')` raises `AttributeError` whenever the
present `schema_version` is not a string — then the model-type check.
Returns the appended (errors, warnings) on normal completion. -/
def structureDyn (model : List (String × PyVal)) :
    Except PyExn (List SDiag × List SDiag) :=
  let errs1 := (requiredFields.filter
    (fun f => (alookup model f).isNone)).map SDiag.missingField
  match alookup model "schema_version" with
  | some (.str v) =>
    let warns := if !pyStartsWith v "0.1." then [SDiag.versionMismatch v] else []
    structureDynMeta model errs1 warns
  | some _ => .error .attributeError
  | Option.none => structureDynMeta model errs1 []

/-- C8 counterexample: a parsed model carrying every required field
but a numeric `schema_version` makes the very first core check raise
`AttributeError` (from `version.startswith('0.1.')`), so the run
aborts instead of skipping a check or emitting an Error diagnostic. -/
theorem C8_numeric_version_raises :
    structureDyn
      [("schema_version", .num (mkRat 1 1)),
       ("model_metadata", .dict [("model_type", .str "decision_tree")]),
       ("model_structure", .dict [("root_node", .str "r")]),
       ("parameters", .dict []),
       ("analysis_settings", .dict [])] = .error .attributeError := rfl

/-- Is the `schema_version` slot absent or a string? -/
def versionWellTyped (model : List (String × PyVal)) : Bool :=
  match alookup model "schema_version" with
  | Option.none => true
  | some (.str _) => true
  | some _ => false

/-- Is the `model_metadata` slot absent or a dict? -/
def metadataWellTyped (model : List (String × PyVal)) : Bool :=
  match alookup model "model_metadata" with
  | Option.none => true
  | some (.dict _) => true
  | some _ => false


/-- The model-type half of the structural check completes exactly when
the present `model_metadata` is well-typed, and raises exactly when it
is not. -/
theorem structureDynMeta_ok_iff (model : List (String × PyVal))
    (errs warns : List SDiag) :
    ((∃ r, structureDynMeta model errs warns = .ok r) ↔
      metadataWellTyped model = true) ∧
    (structureDynMeta model errs warns = .error .attributeError ↔
      metadataWellTyped model = false) := by
  rw [structureDynMeta, metadataWellTyped]
  cases hm : alookup model "model_metadata" with
  | none =>
    simp [hm]
  | some v =>
    cases v with
    | dict md =>
      simp only [hm]
      constructor
      · constructor
        · intro _
          trivial
        · intro _
          split_ifs <;> exact ⟨_, rfl⟩
      · constructor
        · intro h
          split_ifs at h <;> exact absurd h (by simp)
        · intro h
          simp at h
    | none => simp [hm]
    | bool b => simp [hm]
    | num q => simp [hm]
    | str s => simp [hm]
    | list l => simp [hm]

/-- C8 (amended): `validate` invokes `_validate_structure` first and
unguarded; that check completes without an exception if and only if
the present `schema_version` value is a string and the present
`model_metadata` value is a dict — absent keys never raise, they yield
missing-field Errors and skip the dependent check half.  Otherwise it
raises `AttributeError` (a present non-string `schema_version` at
`version.startswith('0.1.')`, a present non-dict `model_metadata` at
`.get('model_type')`), aborting the whole run with no Error
diagnostic. -/
theorem C8_amended_structure_raise_iff (model : List (String × PyVal)) :
    ((∃ r, structureDyn model = .ok r) ↔
      versionWellTyped model = true ∧ metadataWellTyped model = true) ∧
    (structureDyn model = .error .attributeError ↔
      (versionWellTyped model = false ∨ metadataWellTyped model = false)) := by
  rw [structureDyn, versionWellTyped]
  cases hv : alookup model "schema_version" with
  | none =>
    simp only [hv]
    have h := structureDynMeta_ok_iff model
      ((requiredFields.filter (fun f => (alookup model f).isNone)).map
        SDiag.missingField) []
    constructor
    · rw [h.1]
      simp
    · rw [h.2]
      simp
  | some v =>
    cases v with
    | str sv =>
      simp only [hv]
      have h := structureDynMeta_ok_iff model
        ((requiredFields.filter (fun f => (alookup model f).isNone)).map
          SDiag.missingField)
        (if !pyStartsWith sv "0.1." then [SDiag.versionMismatch sv] else [])
      constructor
      · rw [h.1]
        simp
      · rw [h.2]
        simp
    | none =>
      simp [hv]
    | bool b =>
      simp [hv]
    | num q =>
      simp [hv]
    | list l =>
      simp [hv]
    | dict d =>
      simp [hv]
